import Mathlib

/-!
Verification of the py-gql GraphQL engine core against its natural-language
specification.  Each section shallowly embeds one part of the Python source
(`src/py_gql/...`) as executable Lean definitions and proves the claims of
the specification about it.

Conventions used throughout:
* Python strings are modelled as `List Char`.
* Python exceptions are modelled with `Except String` (the string carries the
  exception message) or `Option` where only presence matters.
* Python dicts that are only ever extended with fresh keys are modelled as
  insertion-ordered association lists.
-/

/-!
Section 1: block strings and source locations, from `src/py_gql/lang/utils.py`.
-/

namespace GqlLang

/-- Characters matched by the `LEADING_WS` regular expression `^[\t\s]*` of
`py_gql/lang/utils.py` and stripped by Python's `str.strip()` (ASCII
whitespace). -/
def isPyWS (c : Char) : Bool :=
  c == ' ' || c == '\t' || c == '\n' || c == '\r' || c == '\x0b' || c == '\x0c'

/-- Splitting on the `LINE_SEPARATOR` regular expression `\r\n|[\n\r]`:
accumulator-based scan over the characters. -/
def splitLinesAux : List Char → List Char → List (List Char)
  | cur, [] => [cur.reverse]
  | cur, '\r' :: '\n' :: rest => cur.reverse :: splitLinesAux [] rest
  | cur, '\n' :: rest => cur.reverse :: splitLinesAux [] rest
  | cur, '\r' :: rest => cur.reverse :: splitLinesAux [] rest
  | cur, c :: rest => splitLinesAux (c :: cur) rest

/-- `LINE_SEPARATOR.split(raw_string)` from `py_gql/lang/utils.py`. -/
def splitLines (s : List Char) : List (List Char) :=
  splitLinesAux [] s

/-- `leading_whitespace` from `py_gql/lang/utils.py`: the number of leading
whitespace characters (`len(string) - len(LEADING_WS.sub('', string))`). -/
def leading_whitespace (l : List Char) : Nat :=
  (l.takeWhile isPyWS).length

/-- `is_blank` from `py_gql/lang/utils.py`: `not string.strip()`, true exactly
when every character is whitespace. -/
def is_blank (l : List Char) : Bool :=
  l.all isPyWS

/-- The `common_indent` loop of `parse_block_string`: lines are scanned in
order, the first line is skipped (handled by the caller), and a line updates
the accumulator when its indent is smaller than its length and smaller than
the current accumulator. -/
def commonIndentAux : Option Nat → List (List Char) → Option Nat
  | acc, [] => acc
  | acc, line :: rest =>
      let indent := leading_whitespace line
      let acc' :=
        match acc with
        | none => if indent < line.length then some indent else none
        | some ci =>
            if indent < line.length && indent < ci then some indent else some ci
      commonIndentAux acc' rest

/-- Common indent of all lines except the first, as computed by the first
loop of `parse_block_string`. -/
def commonIndent : List (List Char) → Option Nat
  | [] => none
  | _ :: rest => commonIndentAux none rest

/-- The dedent step of `parse_block_string`: when the computed common indent
is truthy (`if common_indent:`), every line except the first whose length is
at least the common indent is sliced with `line[common_indent:]`. -/
def dedentLines (lines : List (List Char)) : List (List Char) :=
  match commonIndent lines with
  | none => lines
  | some 0 => lines
  | some ci =>
      lines.enum.map fun p =>
        if ci ≤ p.2.length && decide (0 < p.1) then p.2.drop ci else p.2

/-- The `while strip_leading_newlines and lines and is_blank(lines[0])` loop:
drop leading blank lines. -/
def stripLeadingBlank (lines : List (List Char)) : List (List Char) :=
  lines.dropWhile fun l => is_blank l

/-- The `while strip_trailing_newlines and lines and is_blank(lines[-1])`
loop: drop trailing blank lines. -/
def stripTrailingBlank (lines : List (List Char)) : List (List Char) :=
  (lines.reverse.dropWhile fun l => is_blank l).reverse

/-- The final `"\n".join(lines)`. -/
def joinNL (lines : List (List Char)) : List Char :=
  List.intercalate ['\n'] lines

/-- `parse_block_string` from `py_gql/lang/utils.py`: split the raw body into
lines, compute the common indent of all lines but the first, strip it from
the lines that are long enough, strip leading and trailing blank lines, and
join with a newline.  The two boolean flags mirror the
`strip_trailing_newlines` and `strip_leading_newlines` parameters (both
default to `True` in the source). -/
def parse_block_string
    (raw : List Char)
    (strip_trailing_newlines strip_leading_newlines : Bool) : List Char :=
  let lines := splitLines raw
  let lines :=
    match commonIndent lines with
    | none => lines
    | some 0 => lines
    | some ci =>
        lines.enum.map fun p =>
          if ci ≤ p.2.length && decide (0 < p.1) then p.2.drop ci else p.2
  let lines :=
    if strip_leading_newlines then lines.dropWhile (fun l => is_blank l)
    else lines
  let lines :=
    if strip_trailing_newlines then
      (lines.reverse.dropWhile fun l => is_blank l).reverse
    else lines
  List.intercalate ['\n'] lines

end GqlLang

/-!
Section 2: resolver middlewares, from `src/py_gql/execution/middleware.py`.
-/

namespace Middleware

/-- `apply_middlewares` from `py_gql/execution/middleware.py` for plain
(non-generator) middlewares: `tail = func` then
`for mw in reversed(middlewares): tail = ft.partial(mw, tail)`, which is a
right fold of application over the middleware list.  A middleware receives
the next step as its first argument. -/
def apply_middlewares {α β : Type} (func : α → β)
    (middlewares : List ((α → β) → α → β)) : α → β :=
  middlewares.foldr (fun mw tail => mw tail) func

/-- One `next(gen)` step on a Python generator, modelled by the list of
values the generator will yield: either the generator is exhausted
(`StopIteration`) or it hands over the next value and the remaining
yields. -/
def genNext {β : Type} : List β → Option (β × List β)
  | [] => none
  | y :: rest => some (y, rest)

/-- Run of the wrapper produced by `generator_middleware` from
`py_gql/execution/middleware.py` on a generator that will yield the values
in `yields`.  The first component is the middleware's result
(`RuntimeError("Generator middleware did not yield")` when the very first
`next(gen)` raises `StopIteration`).  The second component is the trace of
the `next(gen)` calls performed by `_finish` after the result completes
(each entry carries the yielded value, `none` standing for the
`StopIteration` that `_finish` swallows); `_finish` is invoked exactly once,
either directly or as the completion callback of a deferred result. -/
def generator_middleware_run {β : Type} (yields : List β) :
    Except String β × List (Option β) :=
  match genNext yields with
  | none => (Except.error "Generator middleware did not yield", [])
  | some (res, rest) =>
      (Except.ok res, [Option.map Prod.fst (genNext rest)])

end Middleware

/-!
Section 3: AST node serialisation and structural equality, from
`src/py_gql/lang/ast.py`.

A `py_gql.lang.ast.Node` instance is determined by its class name and the
values stored in its `__slots__` attributes, so the whole closed family of
AST classes is embedded generically: a node is a class name (`kind`)
together with the ordered list of its slot names and slot values, and a slot
value is a primitive, a child node, or a list of values.  The slot named
`"source"` plays the special role given to it by `Node._props`.
-/

namespace AstNode

/-- Generic value stored in an AST node slot: a primitive, a child node
(class name plus ordered slots), or a list. -/
inductive NodeVal : Type where
  | str (s : String)
  | num (n : Int)
  | boolean (b : Bool)
  | null
  | node (kind : String) (slots : List (String × NodeVal))
  | arr (elems : List NodeVal)

/-- `Node._props` from `py_gql/lang/ast.py`: the slots of a node in order,
with the `source` slot removed. -/
def props (slots : List (String × NodeVal)) : List (String × NodeVal) :=
  slots.filter fun p => p.1 ≠ "source"

mutual

/-- `Node.__eq__` from `py_gql/lang/ast.py`: two values are equal when they
are nodes of the same concrete class whose props (slots except `source`)
are pairwise equal, lists of pairwise equal values, or equal primitives. -/
def nodeEq : NodeVal → NodeVal → Bool
  | .str a, .str b => a == b
  | .num a, .num b => a == b
  | .boolean a, .boolean b => a == b
  | .null, .null => true
  | .node k1 s1, .node k2 s2 => k1 == k2 && slotsEq s1 s2
  | .arr a, .arr b => listEq a b
  | _, _ => false

/-- Slot-list comparison underlying `Node.__eq__`: entries named `source`
are skipped on either side (the `_props` filter), remaining entries must
agree pairwise on name and value. -/
def slotsEq : List (String × NodeVal) → List (String × NodeVal) → Bool
  | [], [] => true
  | [], (n2, _) :: t2 => if n2 = "source" then slotsEq [] t2 else false
  | (n1, _) :: t1, [] => if n1 = "source" then slotsEq t1 [] else false
  | (n1, v1) :: t1, (n2, v2) :: t2 =>
      if n1 = "source" then slotsEq t1 ((n2, v2) :: t2)
      else if n2 = "source" then slotsEq ((n1, v1) :: t1) t2
      else n1 == n2 && nodeEq v1 v2 && slotsEq t1 t2

/-- Element-wise comparison of list-valued slots. -/
def listEq : List NodeVal → List NodeVal → Bool
  | [], [] => true
  | a :: t1, b :: t2 => nodeEq a b && listEq t1 t2
  | _, _ => false

end

/-- JSON-like value produced by `node_to_dict`: dicts are insertion-ordered
association lists. -/
inductive DictVal : Type where
  | str (s : String)
  | num (n : Int)
  | boolean (b : Bool)
  | null
  | dict (entries : List (String × DictVal))
  | arr (elems : List DictVal)

mutual

/-- `node_to_dict` (via `_node_to_dict`) from `py_gql/lang/ast.py`: a node
becomes a dict with one entry per prop (slot except `source`) converted
recursively, plus a `__kind__` entry holding the class name (the keyword
argument of `dict(...)` is inserted after the mapping entries); lists are
converted element-wise and primitives are returned as-is. -/
def node_to_dict : NodeVal → DictVal
  | .str s => .str s
  | .num n => .num n
  | .boolean b => .boolean b
  | .null => .null
  | .node kind slots => .dict (slotsToDict slots ++ [("__kind__", .str kind)])
  | .arr elems => .arr (listToDict elems)

/-- Conversion of a slot list by `_node_to_dict`: the `source` entry is
dropped, the other entries are converted recursively in order. -/
def slotsToDict : List (String × NodeVal) → List (String × DictVal)
  | [] => []
  | (n, v) :: rest =>
      if n = "source" then slotsToDict rest
      else (n, node_to_dict v) :: slotsToDict rest

/-- Element-wise conversion of list-valued slots by `_node_to_dict`. -/
def listToDict : List NodeVal → List DictVal
  | [] => []
  | v :: rest => node_to_dict v :: listToDict rest

end

mutual

/-- Erase every `source` slot of a value, recursively.  Two values with the
same erasure differ at most in their `source` labels. -/
def stripSource : NodeVal → NodeVal
  | .node kind slots => .node kind (stripSlots slots)
  | .arr elems => .arr (stripList elems)
  | v => v

/-- Erase `source` slots inside a slot list. -/
def stripSlots : List (String × NodeVal) → List (String × NodeVal)
  | [] => []
  | (n, v) :: rest =>
      if n = "source" then stripSlots rest
      else (n, stripSource v) :: stripSlots rest

/-- Erase `source` slots inside a list of values. -/
def stripList : List NodeVal → List NodeVal
  | [] => []
  | v :: rest => stripSource v :: stripList rest

end

end AstNode

/-!
Section 4: offset and (line, column) conversions, from
`src/py_gql/lang/utils.py` (`index_to_loc`, `loc_to_index`).
-/

namespace GqlLang

/-- Loop body of `index_to_loc`: walk the characters; when the offset
reaches the position return the 1-based `(lines + 1, cols + 1)`, counting a
line and resetting the column on every newline; falling off the end of the
body also returns `(lines + 1, cols + 1)`. -/
def index_to_loc_loop : List Char → Nat → Nat → Nat → Nat × Nat
  | _, 0, lines, cols => (lines + 1, cols + 1)
  | [], _ + 1, lines, cols => (lines + 1, cols + 1)
  | c :: rest, pos + 1, lines, cols =>
      if c = '\n' then index_to_loc_loop rest pos (lines + 1) 0
      else index_to_loc_loop rest pos lines (cols + 1)

/-- `index_to_loc` from `py_gql/lang/utils.py`: the `(lineno, col)` 1-based
tuple of a 0-based offset; `(1, 1)` for an empty body at position 0,
`IndexError` when the position exceeds the body length. -/
def index_to_loc (body : List Char) (position : Nat) :
    Except String (Nat × Nat) :=
  if body = [] ∧ position = 0 then Except.ok (1, 1)
  else if body.length < position then Except.error "IndexError"
  else Except.ok (index_to_loc_loop body position 0 0)

/-- Loop body of `loc_to_index`: walk the characters with their index; on
the first index whose running line count equals `lineo - 1`, return
`index + col - 1` when it does not exceed the body length and fail
otherwise (the `break` followed by `raise IndexError`); count a line on
every newline; an exhausted loop fails. -/
def loc_to_index_loop (total : Nat) (lineo col : Int) :
    List Char → Nat → Int → Option Int
  | [], _, _ => none
  | c :: rest, index, lines =>
      if lines = lineo - 1 then
        if (index : Int) + col - 1 ≤ (total : Int) then
          some ((index : Int) + col - 1)
        else none
      else
        loc_to_index_loop total lineo col rest (index + 1)
          (if c = '\n' then lines + 1 else lines)

/-- `loc_to_index` from `py_gql/lang/utils.py`: the 0-based offset of a
1-based `(lineno, col)` tuple; `0` for an empty body at `(1, 1)`,
`IndexError` when the loop fails. -/
def loc_to_index (body : List Char) (loc : Int × Int) : Except String Int :=
  if body = [] ∧ loc = (1, 1) then Except.ok 0
  else
    match loc_to_index_loop body.length loc.1 loc.2 body 0 0 with
    | some i => Except.ok i
    | none => Except.error "IndexError"

end GqlLang

/-!
Section 5: building a schema from an SDL document, from
`src/py_gql/schema/_schema_from_ast.py`.

The AST node classes (from `src/py_gql/lang/ast.py`) are embedded with the
fields the builder reads.  The `py_gql.schema` classes the builder
constructs are not part of the sources, so the built types are modelled
from the spec's data model (section 3 of the spec); field and argument
types are kept as unresolved AST type references since no claim depends on
the recursive type resolution, and argument default values and deprecation
reasons are omitted because the `py_gql.utilities` coercion helpers they
need are not part of the sources and no claim inspects them.
-/

namespace SDLBuild

/-- AST type reference (`NamedType`, `ListType`, `NonNullType` from
`py_gql/lang/ast.py`). -/
inductive TypeRefNode : Type where
  | named (name : String)
  | listT (t : TypeRefNode)
  | nonNullT (t : TypeRefNode)

/-- `FieldDefinition` node: name, return type, arguments (name and type of
each `InputValueDefinition`) and description. -/
structure FieldDefNode : Type where
  name : String
  type : TypeRefNode
  args : List (String × TypeRefNode)
  description : Option String

/-- `EnumValueDefinition` node: name and description. -/
structure EnumValueDefNode : Type where
  name : String
  description : Option String

/-- `DirectiveDefinition` node: name, description, locations and argument
definitions. -/
structure DirectiveDefNode : Type where
  name : String
  description : Option String
  locations : List String
  args : List (String × TypeRefNode)

/-- The `TypeDefinition` subclasses of `py_gql/lang/ast.py`. -/
inductive TypeDefNode : Type where
  | scalarDef (name : String) (description : Option String)
  | objectDef (name : String) (description : Option String)
      (interfaces : List String) (fields : List FieldDefNode)
  | interfaceDef (name : String) (description : Option String)
      (fields : List FieldDefNode)
  | unionDef (name : String) (description : Option String)
      (types : List String)
  | enumDef (name : String) (description : Option String)
      (values : List EnumValueDefNode)
  | inputObjectDef (name : String) (description : Option String)
      (fields : List (String × TypeRefNode))

/-- `definition.name.value` of a type definition. -/
def TypeDefNode.name : TypeDefNode → String
  | .scalarDef n _ => n
  | .objectDef n _ _ _ => n
  | .interfaceDef n _ _ => n
  | .unionDef n _ _ => n
  | .enumDef n _ _ => n
  | .inputObjectDef n _ _ => n

/-- The `TypeExtension` subclasses of `py_gql/lang/ast.py`.  Note that
`UnionTypeExtension` carries member `types` and no `values` attribute,
while `EnumTypeExtension` carries `values`. -/
inductive TypeExtNode : Type where
  | scalarExt (name : String)
  | objectExt (name : String) (interfaces : List String)
      (fields : List FieldDefNode)
  | interfaceExt (name : String) (fields : List FieldDefNode)
  | unionExt (name : String) (types : List String)
  | enumExt (name : String) (values : List EnumValueDefNode)
  | inputObjectExt (name : String) (fields : List (String × TypeRefNode))

/-- `definition.name.value` of a type extension. -/
def TypeExtNode.name : TypeExtNode → String
  | .scalarExt n => n
  | .objectExt n _ _ => n
  | .interfaceExt n _ => n
  | .unionExt n _ => n
  | .enumExt n _ => n
  | .inputObjectExt n _ => n

/-- A definition of an SDL document as consumed by `_extract_type`:
a schema definition (its `operation_types` as `(operation, type name)`
pairs), a type definition, a type extension, a directive definition, or any
other definition (ignored by the loop). -/
inductive SDLDef : Type where
  | schemaDef (ops : List (String × String))
  | typeDef (d : TypeDefNode)
  | typeExt (e : TypeExtNode)
  | directiveDef (d : DirectiveDefNode)
  | otherDef

/-- Result of the extraction pass: at most one schema definition, the
name-keyed insertion-ordered map of type definitions, the name-grouped
extension lists (a `defaultdict(list)`, modelled as a total function) and
the name-keyed map of directive definitions. -/
structure ExtractResult : Type where
  schemaDefinition : Option (List (String × String))
  types : List (String × TypeDefNode)
  extensions : String → List TypeExtNode
  directives : List (String × DirectiveDefNode)

/-- Loop body of `_extract_type` from `py_gql/schema/_schema_from_ast.py`:
a second schema definition, a duplicate type name or a duplicate directive
name raises `SDLError`; extensions are appended to their name's group. -/
def extractAux (acc : ExtractResult) : List SDLDef → Except String ExtractResult
  | [] => Except.ok acc
  | d :: rest =>
      match d with
      | .schemaDef ops =>
          if acc.schemaDefinition.isSome then
            Except.error "Must provide only one schema definition"
          else
            extractAux { acc with schemaDefinition := some ops } rest
      | .typeDef t =>
          if acc.types.any fun p => p.1 == t.name then
            Except.error ("Duplicate type " ++ t.name)
          else
            extractAux { acc with types := acc.types ++ [(t.name, t)] } rest
      | .typeExt e =>
          extractAux
            { acc with
              extensions := fun n =>
                if n = e.name then acc.extensions n ++ [e]
                else acc.extensions n } rest
      | .directiveDef dd =>
          if acc.directives.any fun p => p.1 == dd.name then
            Except.error ("Duplicate directive @" ++ dd.name)
          else
            extractAux
              { acc with directives := acc.directives ++ [(dd.name, dd)] } rest
      | .otherDef => extractAux acc rest

/-- `_extract_type` from `py_gql/schema/_schema_from_ast.py`, started on
empty accumulators. -/
def _extract_type (defs : List SDLDef) : Except String ExtractResult :=
  extractAux
    { schemaDefinition := none, types := [], extensions := fun _ => [],
      directives := [] } defs

/-- The `operation_types` payloads of the schema definitions of a document,
in order. -/
def schemaDefs : List SDLDef → List (List (String × String))
  | [] => []
  | .schemaDef ops :: rest => ops :: schemaDefs rest
  | .typeDef _ :: rest => schemaDefs rest
  | .typeExt _ :: rest => schemaDefs rest
  | .directiveDef _ :: rest => schemaDefs rest
  | .otherDef :: rest => schemaDefs rest

/-- The name-keyed entries of the type definitions of a document, in
order. -/
def typeDefEntries : List SDLDef → List (String × TypeDefNode)
  | [] => []
  | .schemaDef _ :: rest => typeDefEntries rest
  | .typeDef t :: rest => (t.name, t) :: typeDefEntries rest
  | .typeExt _ :: rest => typeDefEntries rest
  | .directiveDef _ :: rest => typeDefEntries rest
  | .otherDef :: rest => typeDefEntries rest

/-- The names of the type definitions of a document, in order. -/
def typeDefNames (defs : List SDLDef) : List String :=
  (typeDefEntries defs).map Prod.fst

/-- The type extensions of a document carrying a given name, in order. -/
def extEntries (n : String) : List SDLDef → List TypeExtNode
  | [] => []
  | .schemaDef _ :: rest => extEntries n rest
  | .typeDef _ :: rest => extEntries n rest
  | .typeExt e :: rest =>
      if n = e.name then e :: extEntries n rest else extEntries n rest
  | .directiveDef _ :: rest => extEntries n rest
  | .otherDef :: rest => extEntries n rest

/-- The name-keyed entries of the directive definitions of a document, in
order. -/
def directiveEntries : List SDLDef → List (String × DirectiveDefNode)
  | [] => []
  | .schemaDef _ :: rest => directiveEntries rest
  | .typeDef _ :: rest => directiveEntries rest
  | .typeExt _ :: rest => directiveEntries rest
  | .directiveDef dd :: rest => (dd.name, dd) :: directiveEntries rest
  | .otherDef :: rest => directiveEntries rest

/-- The names of the directive definitions of a document, in order. -/
def directiveNames (defs : List SDLDef) : List String :=
  (directiveEntries defs).map Prod.fst

/-- First-of-two options (Python's `x if x is not None else y` on the
accumulated schema definition). -/
def orO {α : Type} : Option α → Option α → Option α
  | some x, _ => some x
  | none, y => y

/-- Python exceptions raised while materialising a type: `SDLError` with its
message, the `TypeError` raised by `list.extend(None)`, and the
`AttributeError` raised by reading a missing attribute. -/
inductive PyErr : Type where
  | sdl (msg : String)
  | typeError
  | attributeError

/-- Modelled from the spec: the `py_gql.schema.EnumValue` carried by a
built enum type (name, description and internal value); the
`py_gql.schema` module is not part of the sources. -/
structure BEnumValue : Type where
  name : String
  description : Option String
  value : String

/-- Modelled from the spec: a built `py_gql.schema.Field`; the field's type
and argument types are kept as unresolved AST references since no claim
depends on the recursive `build_type` resolution, and default-value
coercion and deprecation are omitted with the absent `py_gql.utilities`
helpers. -/
structure BField : Type where
  name : String
  type : TypeRefNode
  args : List (String × TypeRefNode)
  description : Option String

/-- Modelled from the spec: the named `py_gql.schema` types produced by the
builder; interface lists and union members are kept as type names. -/
inductive BuiltType : Type where
  | scalar (name : String) (description : Option String)
  | object (name : String) (description : Option String)
      (fields : List BField) (interfaces : List String)
  | iface (name : String) (description : Option String)
      (fields : List BField)
  | union (name : String) (description : Option String)
      (types : List String)
  | enum (name : String) (description : Option String)
      (values : List BEnumValue)
  | inputObject (name : String) (description : Option String)
      (fields : List (String × TypeRefNode))

/-- `_TypeMapBuilder.enum_value`: name, description, and the name as
internal value. -/
def enum_value (node : EnumValueDefNode) : BEnumValue :=
  { name := node.name, description := node.description, value := node.name }

/-- `_TypeMapBuilder.object_field`: name, type reference, arguments and
description. -/
def object_field (node : FieldDefNode) : BField :=
  { name := node.name, type := node.type, args := node.args,
    description := node.description }

/-- The extension loop of `_TypeMapBuilder.object_type`: every extension
must be an `ObjectTypeExtension` (else `SDLError`); its fields are appended
and its interfaces are appended through
`t.interfaces.extend([...] if ext.interfaces else None)` — when the
extension declares no interfaces the Python expression is `None` and
`list.extend(None)` raises `TypeError`. -/
def applyObjectExts (name : String) :
    List TypeExtNode → List BField → List String →
      Except PyErr (List BField × List String)
  | [], fields, interfaces => Except.ok (fields, interfaces)
  | ext :: rest, fields, interfaces =>
      match ext with
      | .objectExt _ ifaces efields =>
          match ifaces with
          | [] => Except.error PyErr.typeError
          | _ :: _ =>
              applyObjectExts name rest (fields ++ efields.map object_field)
                (interfaces ++ ifaces)
      | _ =>
          Except.error
            (PyErr.sdl ("Expected an ObjectTypeExtension node for ObjectType "
              ++ name))

/-- `_TypeMapBuilder.object_type`: build the fields and interfaces, then
apply the grouped extensions. -/
def object_type (extMap : String → List TypeExtNode) (name : String)
    (description : Option String) (interfaces : List String)
    (fields : List FieldDefNode) : Except PyErr BuiltType :=
  (applyObjectExts name (extMap name) (fields.map object_field)
      interfaces).map
    fun p => BuiltType.object name description p.1 p.2

/-- The extension loop of `_TypeMapBuilder.interface_type`: every extension
must be an `InterfaceTypeExtension` (else `SDLError`); its fields are
appended. -/
def applyInterfaceExts (name : String) :
    List TypeExtNode → List BField → Except PyErr (List BField)
  | [], fields => Except.ok fields
  | ext :: rest, fields =>
      match ext with
      | .interfaceExt _ efields =>
          applyInterfaceExts name rest (fields ++ efields.map object_field)
      | _ =>
          Except.error
            (PyErr.sdl
              ("Expected an InterfaceTypeExtension node for InterfaceType "
                ++ name))

/-- `_TypeMapBuilder.interface_type`: build the fields, then apply the
grouped extensions. -/
def interface_type (extMap : String → List TypeExtNode) (name : String)
    (description : Option String) (fields : List FieldDefNode) :
    Except PyErr BuiltType :=
  (applyInterfaceExts name (extMap name) (fields.map object_field)).map
    fun fs => BuiltType.iface name description fs

/-- The extension loop of `_TypeMapBuilder.union_type`: every extension
must be a `UnionTypeExtension` (else `SDLError`); its member types are
appended. -/
def applyUnionExts (name : String) :
    List TypeExtNode → List String → Except PyErr (List String)
  | [], types => Except.ok types
  | ext :: rest, types =>
      match ext with
      | .unionExt _ etypes => applyUnionExts name rest (types ++ etypes)
      | _ =>
          Except.error
            (PyErr.sdl ("Expected an UnionTypeExtension node for UnionType "
              ++ name))

/-- `_TypeMapBuilder.union_type`: build the member list, then apply the
grouped extensions. -/
def union_type (extMap : String → List TypeExtNode) (name : String)
    (description : Option String) (types : List String) :
    Except PyErr BuiltType :=
  (applyUnionExts name (extMap name) types).map
    fun ts => BuiltType.union name description ts

/-- The extension loop of `_TypeMapBuilder.enum_type` as written in the
source: the branch checks `isinstance(ext, _ast.UnionTypeExtension)`, so
every extension that is not a `UnionTypeExtension` — including the
`EnumTypeExtension` nodes the method is meant to accept — raises
`SDLError("Expected an UnionTypeExtension node for UnionType ...")`, and a
`UnionTypeExtension` passes the check only for `ext.values` to raise
`AttributeError` since union extensions carry `types`, not `values`. -/
def applyEnumExts (name : String) :
    List TypeExtNode → List BEnumValue → Except PyErr (List BEnumValue)
  | [], values => Except.ok values
  | ext :: _, _ =>
      match ext with
      | .unionExt _ _ => Except.error PyErr.attributeError
      | _ =>
          Except.error
            (PyErr.sdl ("Expected an UnionTypeExtension node for UnionType "
              ++ name))

/-- `_TypeMapBuilder.enum_type`: build the values, then apply the grouped
extensions through the erroneous `UnionTypeExtension` check. -/
def enum_type (extMap : String → List TypeExtNode) (name : String)
    (description : Option String) (values : List EnumValueDefNode) :
    Except PyErr BuiltType :=
  (applyEnumExts name (extMap name) (values.map enum_value)).map
    fun vs => BuiltType.enum name description vs

/-- `_TypeMapBuilder.scalar_type`: a `DefaultCustomScalar` from name and
description; the grouped extensions are never consulted. -/
def scalar_type (name : String) (description : Option String) :
    Except PyErr BuiltType :=
  Except.ok (BuiltType.scalar name description)

/-- `_TypeMapBuilder.input_object_type`: fields from the nodes; the source
has no extension loop for input object types. -/
def input_object_type (name : String) (description : Option String)
    (fields : List (String × TypeRefNode)) : Except PyErr BuiltType :=
  Except.ok (BuiltType.inputObject name description fields)

/-- `_TypeMapBuilder.type_from_definition`: dispatch on the kind of the
type definition. -/
def type_from_definition (extMap : String → List TypeExtNode) :
    TypeDefNode → Except PyErr BuiltType
  | .scalarDef name description => scalar_type name description
  | .objectDef name description interfaces fields =>
      object_type extMap name description interfaces fields
  | .interfaceDef name description fields =>
      interface_type extMap name description fields
  | .unionDef name description types =>
      union_type extMap name description types
  | .enumDef name description values =>
      enum_type extMap name description values
  | .inputObjectDef name description fields =>
      input_object_type name description fields

/-- Python's `str.capitalize`: first character uppercased, the rest
lowercased. -/
def pyCapitalize (s : String) : String :=
  match s.toList with
  | [] => ""
  | c :: t => String.mk (Char.toUpper c :: t.map Char.toLower)

/-- `dict.get` on the name-keyed type map (keys are unique by
extraction). -/
def lookupType {α : Type} (typeMap : List (String × α)) (n : String) :
    Option α :=
  (typeMap.find? fun p => p.1 == n).map Prod.snd

/-- The loop of `_operation_types` over the schema definition's
`operation_types`: a repeated operation raises
`SDLError("Can only define one ... in schema")`, an operation type missing
from the type map raises `SDLError("... not found in document")`, otherwise
the operation is mapped to the registered type. -/
def opTypesAux {α : Type} (typeMap : List (String × α)) :
    List (String × String) → List (String × Option α) →
      Except String (List (String × Option α))
  | [], acc => Except.ok acc
  | (op, tyName) :: rest, acc =>
      if acc.any fun p => p.1 == op then
        Except.error ("Can only define one " ++ op ++ " in schema")
      else
        match lookupType typeMap tyName with
        | none =>
            Except.error (op ++ " type " ++ tyName ++ " not found in document")
        | some t => opTypesAux typeMap rest (acc ++ [(op, some t)])

/-- `_operation_types` from `py_gql/schema/_schema_from_ast.py`: without a
schema definition, look up the capitalised operation names in the type map
(a missing type yields `None`); with one, run the checked loop over its
`operation_types`. -/
def _operation_types {α : Type}
    (schemaDef : Option (List (String × String)))
    (typeMap : List (String × α)) :
    Except String (List (String × Option α)) :=
  match schemaDef with
  | none =>
      Except.ok
        [("query", lookupType typeMap (pyCapitalize "query")),
         ("mutation", lookupType typeMap (pyCapitalize "mutation")),
         ("subscription", lookupType typeMap (pyCapitalize "subscription"))]
  | some opdefs => opTypesAux typeMap opdefs []

end SDLBuild

/-!
Section 6: the type-tracking visitor, from
`src/py_gql/utilities/type_info.py`.

The visitor walks a parsed executable document and tracks schema types.
The `py_gql.schema` type model and the `py_gql.lang.visitor` walker it
relies on are not part of the sources; they are modelled from the spec
(sections 3, 4.3 and 4.7): types are closed sums classified as input /
output / composite, wrappers are unwrapped recursively, type identity
inside a schema is by name, and the walker calls `enter` on a node, then
recurses into its children in slot order, then calls `leave`.  The handlers
themselves are translated from `type_info.py`; list pops are modelled with
`Except` so that an unbalanced pop would surface as an error.
-/

namespace TypeInfo

/-- Modelled from the spec: the closed sum of `py_gql.schema` types.
Object and interface fields are `(name, type, argument definitions)`
triples; argument and input-object field definitions are `(name, type)`
pairs. -/
inductive GType : Type where
  | scalar (name : String)
  | enum (name : String) (values : List String)
  | object (name : String)
      (fields : List (String × GType × List (String × GType)))
  | iface (name : String)
      (fields : List (String × GType × List (String × GType)))
  | union (name : String) (members : List String)
  | inputObject (name : String) (fields : List (String × GType))
  | listW (t : GType)
  | nonNull (t : GType)

/-- Modelled from the spec: `unwrap_type` strips the List / NonNull
wrappers down to the named type. -/
def unwrap_type : GType → GType
  | .listW t => unwrap_type t
  | .nonNull t => unwrap_type t
  | .scalar n => .scalar n
  | .enum n vs => .enum n vs
  | .object n fs => .object n fs
  | .iface n fs => .iface n fs
  | .union n ms => .union n ms
  | .inputObject n fs => .inputObject n fs

/-- Modelled from the spec: `nullable_type` strips one NonNull wrapper. -/
def nullable_type : GType → GType
  | .nonNull t => t
  | t => t

/-- Modelled from the spec: composite types are Object, Interface and
Union. -/
def isComposite : GType → Bool
  | .object _ _ => true
  | .iface _ _ => true
  | .union _ _ => true
  | _ => false

/-- Modelled from the spec: `ObjectType` check. -/
def isObjectType : GType → Bool
  | .object _ _ => true
  | _ => false

/-- Modelled from the spec: input types are Scalar, Enum, InputObject and
their wrappers. -/
def is_input_type : GType → Bool
  | .scalar _ => true
  | .enum _ _ => true
  | .inputObject _ _ => true
  | .listW t => is_input_type t
  | .nonNull t => is_input_type t
  | _ => false

/-- Modelled from the spec: output types are Scalar, Enum, Object,
Interface, Union and their wrappers. -/
def is_output_type : GType → Bool
  | .scalar _ => true
  | .enum _ _ => true
  | .object _ _ => true
  | .iface _ _ => true
  | .union _ _ => true
  | .listW t => is_output_type t
  | .nonNull t => is_output_type t
  | .inputObject _ _ => false

/-- Modelled from the spec: the name of a named type (type identity inside
one schema is by name; wrappers are anonymous). -/
def GType.nameOf : GType → String
  | .scalar n => n
  | .enum n _ => n
  | .object n _ => n
  | .iface n _ => n
  | .union n _ => n
  | .inputObject n _ => n
  | .listW _ => ""
  | .nonNull _ => ""

/-- Modelled from the spec: a `py_gql.schema.Directive` (name and argument
definitions). -/
structure GDirective : Type where
  name : String
  args : List (String × GType)

/-- Modelled from the spec: the schema as consumed by the visitor:
operation root types, the name-keyed type registry and the directive
registry. -/
structure GSchema : Type where
  query_type : Option GType
  mutation_type : Option GType
  subscription_type : Option GType
  types : List (String × GType)
  directives : List (String × GDirective)

/-- AST type reference (`NamedType`, `ListType`, `NonNullType` from
`py_gql/lang/ast.py`). -/
inductive TypeRefAst : Type where
  | named (name : String)
  | listT (t : TypeRefAst)
  | nonNullT (t : TypeRefAst)

/-- Modelled from the spec: `Schema.get_type_from_literal` (`typeFromAST`):
resolve the named type in the registry — an unknown name raises
`UnknownType`, which `TypeInfoVisitor._type_from_ast` catches and turns
into `None` — and rebuild the wrappers. -/
def get_type_from_literal (schema : GSchema) : TypeRefAst → Option GType
  | .named n => (schema.types.find? fun p => p.1 == n).map Prod.snd
  | .listT t => (get_type_from_literal schema t).map GType.listW
  | .nonNullT t => (get_type_from_literal schema t).map GType.nonNull

/-- Modelled from the spec: the `__schema` meta field available on the
query root. -/
def schemaIntrospectionField : String × GType × List (String × GType) :=
  ("__schema", GType.nonNull (GType.object "__Schema" []), [])

/-- Modelled from the spec: the `__type(name)` meta field available on the
query root. -/
def typeIntrospectionField : String × GType × List (String × GType) :=
  ("__type", GType.object "__Type" [],
    [("name", GType.nonNull (GType.scalar "String"))])

/-- Modelled from the spec: the `__typename` meta field available on every
composite type. -/
def typenameIntrospectionField : String × GType × List (String × GType) :=
  ("__typename", GType.nonNull (GType.scalar "String"), [])

/-- `field_map.get(name, None)` on an object or interface field list. -/
def field_map_get (fields : List (String × GType × List (String × GType)))
    (n : String) : Option (String × GType × List (String × GType)) :=
  fields.find? fun f => f.1 == n

/-- `_get_field_def` from `py_gql/utilities/type_info.py`: meta fields
`__schema` and `__type` on the query root, `__typename` on any composite,
otherwise a `field_map` lookup on object and interface parents, and `None`
in every other case.  The Python `parent_type is schema.query_type`
identity test is modelled by name equality (type identity inside one
schema is by name). -/
def _get_field_def (schema : GSchema) (parent_type : GType)
    (fieldName : String) :
    Option (String × GType × List (String × GType)) :=
  if (match schema.query_type with
      | some q => parent_type.nameOf == q.nameOf
      | none => false) && fieldName == "__schema" then
    some schemaIntrospectionField
  else if (match schema.query_type with
      | some q => parent_type.nameOf == q.nameOf
      | none => false) && fieldName == "__type" then
    some typeIntrospectionField
  else if isComposite parent_type && fieldName == "__typename" then
    some typenameIntrospectionField
  else
    match parent_type with
    | .object _ fields => field_map_get fields fieldName
    | .iface _ fields => field_map_get fields fieldName
    | _ => none

/-- AST value nodes from `py_gql/lang/ast.py` (`ObjectValue` fields are
`ObjectField` nodes: name and value). -/
inductive ValueNode : Type where
  | intV (s : String)
  | floatV (s : String)
  | strV (s : String)
  | boolV (b : Bool)
  | nullV
  | enumV (s : String)
  | varV (name : String)
  | listV (values : List ValueNode)
  | objV (fields : List (String × ValueNode))

/-- AST `Directive` node: name and arguments. -/
structure DirectiveNode : Type where
  name : String
  args : List (String × ValueNode)

mutual

/-- AST `Selection` nodes (`Field`, `FragmentSpread`, `InlineFragment`)
from `py_gql/lang/ast.py`. -/
inductive SelectionNode : Type where
  | field (aliasName : Option String) (name : String)
      (args : List (String × ValueNode)) (directives : List DirectiveNode)
      (selectionSet : Option SelectionSetNode)
  | fragSpread (name : String) (directives : List DirectiveNode)
  | inlineFrag (typeCondition : Option TypeRefAst)
      (directives : List DirectiveNode) (selectionSet : SelectionSetNode)

/-- AST `SelectionSet` node. -/
inductive SelectionSetNode : Type where
  | mk (selections : List SelectionNode)

end

/-- AST `VariableDefinition` node: variable, type and optional default
value. -/
structure VarDefNode : Type where
  varName : String
  type : TypeRefAst
  default_value : Option ValueNode

/-- AST executable definitions (`OperationDefinition`,
`FragmentDefinition`). -/
inductive DefinitionNode : Type where
  | operation (operation : String) (name : Option String)
      (varDefs : List VarDefNode) (directives : List DirectiveNode)
      (selectionSet : SelectionSetNode)
  | frag (name : String) (typeCondition : TypeRefAst)
      (varDefs : List VarDefNode) (directives : List DirectiveNode)
      (selectionSet : SelectionSetNode)

/-- The mutable state of `TypeInfoVisitor`: the five stacks (modelled with
the top at the head; Python appends at the end and peeks `lst[-1]`) and the
three scalar attributes. -/
structure TIState : Type where
  type_stack : List (Option GType)
  parent_type_stack : List (Option GType)
  input_type_stack : List (Option GType)
  field_stack : List (Option (String × GType × List (String × GType)))
  input_value_def_stack : List (Option (String × GType))
  directive : Option GDirective
  argument : Option (String × GType)
  enum_value : Option String

/-- The initial visitor state: empty stacks, `None` scalars. -/
def initTI : TIState :=
  { type_stack := [], parent_type_stack := [], input_type_stack := [],
    field_stack := [], input_value_def_stack := [], directive := none,
    argument := none, enum_value := none }

/-- `_peek(lst, 1, None)`: the top of a stack, `None` when empty. -/
def peek1 {β : Type} (l : List (Option β)) : Option β :=
  match l with
  | [] => none
  | x :: _ => x

/-- `self.type`: top of the type stack. -/
def TIState.type (s : TIState) : Option GType := peek1 s.type_stack

/-- `self.parent_type`: top of the parent-type stack. -/
def TIState.parent_type (s : TIState) : Option GType :=
  peek1 s.parent_type_stack

/-- `self.input_type`: top of the input-type stack. -/
def TIState.input_type (s : TIState) : Option GType :=
  peek1 s.input_type_stack

/-- `self.field`: top of the field-definition stack. -/
def TIState.field (s : TIState) :
    Option (String × GType × List (String × GType)) :=
  peek1 s.field_stack

/-- `list.pop()`: Python raises `IndexError` on an empty list. -/
def popE {β : Type} : List β → Except String (List β)
  | [] => Except.error "IndexError: pop from empty list"
  | _ :: t => Except.ok t

/-- `enter_selection_set`: push the unwrapped current type as the new
parent when it is composite, `None` otherwise (also when there is no
current type). -/
def enter_selection_set (s : TIState) : TIState :=
  let named_type :=
    match s.type with
    | some t => some (unwrap_type t)
    | none => none
  { s with
    parent_type_stack :=
      (match named_type with
       | some nt => if isComposite nt then some nt else none
       | none => none) :: s.parent_type_stack }

/-- `leave_selection_set`: pop the parent-type stack. -/
def leave_selection_set (s : TIState) : Except String TIState := do
  let pt ← popE s.parent_type_stack
  Except.ok { s with parent_type_stack := pt }

/-- `TypeInfoVisitor._get_field_def`: resolve against the current parent
type, `None` when there is none. -/
def get_field_def_m (schema : GSchema) (s : TIState) (fieldName : String) :
    Option (String × GType × List (String × GType)) :=
  match s.parent_type with
  | some pt => _get_field_def schema pt fieldName
  | none => none

/-- `enter_field`: push the resolved field definition (or `None`) and its
type when it is an output type (or `None`). -/
def enter_field (schema : GSchema) (s : TIState) (fieldName : String) :
    TIState :=
  let field_def := get_field_def_m schema s fieldName
  { s with
    field_stack := field_def :: s.field_stack,
    type_stack :=
      (match field_def with
       | some fd => if is_output_type fd.2.1 then some fd.2.1 else none
       | none => none) :: s.type_stack }

/-- `leave_field`: pop the type and field stacks. -/
def leave_field (s : TIState) : Except String TIState := do
  let t ← popE s.type_stack
  let f ← popE s.field_stack
  Except.ok { s with type_stack := t, field_stack := f }

/-- `enter_directive`: registry lookup, `None` when unknown. -/
def enter_directive (schema : GSchema) (s : TIState) (name : String) :
    TIState :=
  { s with
    directive := (schema.directives.find? fun p => p.1 == name).map
      Prod.snd }

/-- `leave_directive`: reset the directive attribute. -/
def leave_directive (s : TIState) : TIState := { s with directive := none }

/-- `enter_operation_definition`: push the operation's root type when it is
an `ObjectType`, `None` otherwise. -/
def enter_operation_definition (schema : GSchema) (s : TIState)
    (operation : String) : TIState :=
  let t :=
    if operation == "query" then schema.query_type
    else if operation == "mutation" then schema.mutation_type
    else if operation == "subscription" then schema.subscription_type
    else none
  { s with
    type_stack :=
      (match t with
       | some ty => if isObjectType ty then some ty else none
       | none => none) :: s.type_stack }

/-- `leave_operation_definition`: pop the type stack. -/
def leave_operation_definition (s : TIState) : Except String TIState := do
  let t ← popE s.type_stack
  Except.ok { s with type_stack := t }

/-- `enter_fragment_definition`: push `typeFromAST` of the type condition
when it is an output type, `None` otherwise (also for unknown types). -/
def enter_fragment_definition (schema : GSchema) (s : TIState)
    (typeCondition : TypeRefAst) : TIState :=
  let t := get_type_from_literal schema typeCondition
  { s with
    type_stack :=
      (match t with
       | some ty => if is_output_type ty then some ty else none
       | none => none) :: s.type_stack }

/-- `leave_fragment_definition`: pop the type stack. -/
def leave_fragment_definition (s : TIState) : Except String TIState := do
  let t ← popE s.type_stack
  Except.ok { s with type_stack := t }

/-- `enter_inline_fragment`: with a type condition, as for fragment
definitions; without, re-push the current type when it is an output
type. -/
def enter_inline_fragment (schema : GSchema) (s : TIState)
    (typeCondition : Option TypeRefAst) : TIState :=
  match typeCondition with
  | some tc =>
      let t := get_type_from_literal schema tc
      { s with
        type_stack :=
          (match t with
           | some ty => if is_output_type ty then some ty else none
           | none => none) :: s.type_stack }
  | none =>
      { s with
        type_stack :=
          (match s.type with
           | some ty => if is_output_type ty then some ty else none
           | none => none) :: s.type_stack }

/-- `leave_inline_fragment`: pop the type stack. -/
def leave_inline_fragment (s : TIState) : Except String TIState := do
  let t ← popE s.type_stack
  Except.ok { s with type_stack := t }

/-- `enter_variable_definition`: push `typeFromAST` of the declared type
when it is an input type, `None` otherwise. -/
def enter_variable_definition (schema : GSchema) (s : TIState)
    (tyNode : TypeRefAst) : TIState :=
  let t := get_type_from_literal schema tyNode
  { s with
    input_type_stack :=
      (match t with
       | some ty => if is_input_type ty then some ty else none
       | none => none) :: s.input_type_stack }

/-- `leave_variable_definition`: pop the input-type stack. -/
def leave_variable_definition (s : TIState) : Except String TIState := do
  let it ← popE s.input_type_stack
  Except.ok { s with input_type_stack := it }

/-- `enter_argument`: locate the argument by name on the current directive
if any, else on the current field; push the argument definition and its
input type; without a context everything pushed is `None` (the source's
`else` branch pushes `None` on both stacks, which coincides with the
unified computation below since the located argument is then `None`). -/
def enter_argument (s : TIState) (argName : String) : TIState :=
  let ctxArgs : Option (List (String × GType)) :=
    match s.directive with
    | some d => some d.args
    | none =>
        match s.field with
        | some f => some f.2.2
        | none => none
  let argDef : Option (String × GType) :=
    match ctxArgs with
    | some args => args.find? fun a => a.1 == argName
    | none => none
  { s with
    argument := argDef,
    input_value_def_stack := argDef :: s.input_value_def_stack,
    input_type_stack :=
      (match argDef with
       | some a => if is_input_type a.2 then some a.2 else none
       | none => none) :: s.input_type_stack }

/-- `_leave_input_value`: pop the input-type and input-value stacks. -/
def _leave_input_value (s : TIState) : Except String TIState := do
  let it ← popE s.input_type_stack
  let iv ← popE s.input_value_def_stack
  Except.ok { s with input_type_stack := it, input_value_def_stack := iv }

/-- `leave_argument`: reset the argument attribute and pop the input
stacks. -/
def leave_argument (s : TIState) : Except String TIState :=
  _leave_input_value { s with argument := none }

/-- `enter_list_value`: push the item type of the nullable-unwrapped
current input type when the latter is a list type and the item type is an
input type, `None` otherwise; list positions have no input value
definition. -/
def enter_list_value (s : TIState) : TIState :=
  let list_type :=
    match s.input_type with
    | some t => some (nullable_type t)
    | none => none
  let item_type :=
    match list_type with
    | some (GType.listW t) => some (unwrap_type (GType.listW t))
    | _ => none
  { s with
    input_type_stack :=
      (match item_type with
       | some t => if is_input_type t then some t else none
       | none => none) :: s.input_type_stack,
    input_value_def_stack := none :: s.input_value_def_stack }

/-- `leave_list_value`: pop the input stacks. -/
def leave_list_value (s : TIState) : Except String TIState :=
  _leave_input_value s

/-- `enter_object_field`: when the unwrapped current input type is an input
object, locate the input field by name and push it and its type; otherwise
push `None` on both stacks (which coincides with the unified computation
below since the located field is then `None`). -/
def enter_object_field (s : TIState) (fieldName : String) : TIState :=
  let object_type :=
    match s.input_type with
    | some t => some (unwrap_type t)
    | none => none
  let field_def : Option (String × GType) :=
    match object_type with
    | some (GType.inputObject _ fields) =>
        fields.find? fun f => f.1 == fieldName
    | _ => none
  { s with
    input_value_def_stack := field_def :: s.input_value_def_stack,
    input_type_stack :=
      (match field_def with
       | some fd => if is_input_type fd.2 then some fd.2 else none
       | none => none) :: s.input_type_stack }

/-- `leave_object_field`: pop the input stacks. -/
def leave_object_field (s : TIState) : Except String TIState :=
  _leave_input_value s

/-- `enter_enum_value`: when the unwrapped current input type is an enum,
set `enum_value` to the looked-up value (`None` when `get_value` raises
`UnknownEnumValue`); otherwise the attribute is left unchanged (the
source's `if` has no `else`, which coincides with the unified computation
below). -/
def enter_enum_value (s : TIState) (v : String) : TIState :=
  let enum :=
    match s.input_type with
    | some t => some (unwrap_type t)
    | none => none
  { s with
    enum_value :=
      match enum with
      | some (GType.enum _ values) => values.find? fun x => x == v
      | _ => s.enum_value }

/-- `leave_enum_value`: reset the enum-value attribute. -/
def leave_enum_value (s : TIState) : TIState := { s with enum_value := none }

mutual

/-- Modelled from the spec: the walker on a value node — `enter` the node,
recurse into its children in slot order, `leave` it; only list values,
object fields and enum values have `TypeInfoVisitor` handlers. -/
def walkValue (schema : GSchema) (s : TIState) :
    ValueNode → Except String TIState
  | .intV _ => Except.ok s
  | .floatV _ => Except.ok s
  | .strV _ => Except.ok s
  | .boolV _ => Except.ok s
  | .nullV => Except.ok s
  | .varV _ => Except.ok s
  | .enumV v => Except.ok (leave_enum_value (enter_enum_value s v))
  | .listV vs => do
      let s2 ← walkValues schema (enter_list_value s) vs
      leave_list_value s2
  | .objV fields => walkObjectFields schema s fields

/-- Walker on the elements of a list value. -/
def walkValues (schema : GSchema) (s : TIState) :
    List ValueNode → Except String TIState
  | [] => Except.ok s
  | v :: rest => do
      let s1 ← walkValue schema s v
      walkValues schema s1 rest

/-- Walker on the `ObjectField` children of an object value. -/
def walkObjectFields (schema : GSchema) (s : TIState) :
    List (String × ValueNode) → Except String TIState
  | [] => Except.ok s
  | (n, v) :: rest => do
      let s2 ← walkValue schema (enter_object_field s n) v
      let s3 ← leave_object_field s2
      walkObjectFields schema s3 rest

end

/-- Walker on the `Argument` children of a field or directive. -/
def walkArguments (schema : GSchema) (s : TIState) :
    List (String × ValueNode) → Except String TIState
  | [] => Except.ok s
  | (n, v) :: rest => do
      let s2 ← walkValue schema (enter_argument s n) v
      let s3 ← leave_argument s2
      walkArguments schema s3 rest

/-- Walker on a directive node: the directive handlers around its
arguments. -/
def walkDirective (schema : GSchema) (s : TIState) (d : DirectiveNode) :
    Except String TIState := do
  let s2 ← walkArguments schema (enter_directive schema s d.name) d.args
  Except.ok (leave_directive s2)

/-- Walker on a directive list. -/
def walkDirectives (schema : GSchema) (s : TIState) :
    List DirectiveNode → Except String TIState
  | [] => Except.ok s
  | d :: rest => do
      let s1 ← walkDirective schema s d
      walkDirectives schema s1 rest

mutual

/-- Walker on a selection: fields visit their arguments, directives and
sub-selections between `enter_field` and `leave_field`; fragment spreads
only visit their directives; inline fragments visit directives and
sub-selections between the inline-fragment handlers. -/
def walkSelection (schema : GSchema) (s : TIState) :
    SelectionNode → Except String TIState
  | .field _ name args directives selectionSet => do
      let s2 ← walkArguments schema (enter_field schema s name) args
      let s3 ← walkDirectives schema s2 directives
      let s4 ←
        match selectionSet with
        | some ss => walkSelectionSet schema s3 ss
        | none => Except.ok s3
      leave_field s4
  | .fragSpread _ directives => walkDirectives schema s directives
  | .inlineFrag typeCondition directives selectionSet => do
      let s2 ← walkDirectives schema
        (enter_inline_fragment schema s typeCondition) directives
      let s3 ← walkSelectionSet schema s2 selectionSet
      leave_inline_fragment s3

/-- Walker on a selection set: its selections between
`enter_selection_set` and `leave_selection_set`. -/
def walkSelectionSet (schema : GSchema) (s : TIState) :
    SelectionSetNode → Except String TIState
  | .mk selections => do
      let s2 ← walkSelections schema (enter_selection_set s) selections
      leave_selection_set s2

/-- Walker on a selection list. -/
def walkSelections (schema : GSchema) (s : TIState) :
    List SelectionNode → Except String TIState
  | [] => Except.ok s
  | sel :: rest => do
      let s1 ← walkSelection schema s sel
      walkSelections schema s1 rest

end

/-- Walker on a variable definition: its default value (when present) is
visited between the variable-definition handlers. -/
def walkVarDef (schema : GSchema) (s : TIState) (vd : VarDefNode) :
    Except String TIState := do
  let s1 := enter_variable_definition schema s vd.type
  let s2 ←
    match vd.default_value with
    | some v => walkValue schema s1 v
    | none => Except.ok s1
  leave_variable_definition s2

/-- Walker on a variable-definition list. -/
def walkVarDefs (schema : GSchema) (s : TIState) :
    List VarDefNode → Except String TIState
  | [] => Except.ok s
  | vd :: rest => do
      let s1 ← walkVarDef schema s vd
      walkVarDefs schema s1 rest

/-- Walker on an executable definition: variable definitions, directives
and the selection set between the operation / fragment handlers. -/
def walkDefinition (schema : GSchema) (s : TIState) :
    DefinitionNode → Except String TIState
  | .operation operation _ varDefs directives selectionSet => do
      let s2 ← walkVarDefs schema
        (enter_operation_definition schema s operation) varDefs
      let s3 ← walkDirectives schema s2 directives
      let s4 ← walkSelectionSet schema s3 selectionSet
      leave_operation_definition s4
  | .frag _ typeCondition varDefs directives selectionSet => do
      let s2 ← walkVarDefs schema
        (enter_fragment_definition schema s typeCondition) varDefs
      let s3 ← walkDirectives schema s2 directives
      let s4 ← walkSelectionSet schema s3 selectionSet
      leave_fragment_definition s4

/-- Walker on a definition list. -/
def walkDefinitions (schema : GSchema) (s : TIState) :
    List DefinitionNode → Except String TIState
  | [] => Except.ok s
  | d :: rest => do
      let s1 ← walkDefinition schema s d
      walkDefinitions schema s1 rest

/-- Walk a whole document with `TypeInfoVisitor` from the initial state. -/
def walkDocument (schema : GSchema) (doc : List DefinitionNode) :
    Except String TIState :=
  walkDefinitions schema initTI doc

/-- Two visitor states with stacks of the same heights. -/
def sameShape (a b : TIState) : Prop :=
  a.type_stack.length = b.type_stack.length ∧
  a.parent_type_stack.length = b.parent_type_stack.length ∧
  a.input_type_stack.length = b.input_type_stack.length ∧
  a.field_stack.length = b.field_stack.length ∧
  a.input_value_def_stack.length = b.input_value_def_stack.length

end TypeInfo

/-!
Theorems: helper lemmas first, then the claim theorems and their
witnesses.
-/

/-- C2: `parse_block_string` splits the body into lines, strips the common
leading-whitespace indent computed over all lines except the first from the
(sufficiently long) later lines, strips leading and trailing blank lines and
joins the result with a newline; on the body `"\n  hello\n    world\n  "`
(the source text `"""\n  hello\n    world\n  """`) it yields
`"hello\n  world"`. -/
theorem C2_parse_block_string :
    (∀ raw : List Char,
      GqlLang.parse_block_string raw true true =
        GqlLang.joinNL
          (GqlLang.stripTrailingBlank
            (GqlLang.stripLeadingBlank
              (GqlLang.dedentLines (GqlLang.splitLines raw))))) ∧
    GqlLang.parse_block_string "\n  hello\n    world\n  ".toList true true =
      "hello\n  world".toList := by
  constructor
  · intro raw
    simp only [GqlLang.parse_block_string, GqlLang.joinNL,
      GqlLang.stripTrailingBlank, GqlLang.stripLeadingBlank,
      GqlLang.dedentLines, if_true]
  · decide

/-- C7: `apply_middlewares` composes inside-out: the head (leftmost)
middleware wraps the composition of the rest, the empty list returns the
function unchanged, and the worked example
`apply_middlewares(lambda x: x*x, [lambda n, x: n(x + 1), lambda n, x: n(x * 3)])(1)`
evaluates to `36` (middlewares run left to right before the function). -/
theorem C7_apply_middlewares :
    (∀ (α β : Type) (func : α → β) (mw : (α → β) → α → β)
        (rest : List ((α → β) → α → β)),
      Middleware.apply_middlewares func (mw :: rest) =
        mw (Middleware.apply_middlewares func rest)) ∧
    (∀ (α β : Type) (func : α → β),
      Middleware.apply_middlewares func [] = func) ∧
    Middleware.apply_middlewares (fun x : Int => x * x)
      [fun n x => n (x + 1), fun n x => n (x * 3)] 1 = 36 := by
  refine ⟨fun α β func mw rest => rfl, fun α β func => rfl, by decide⟩

/-- C8: a generator middleware that terminates without yielding makes the
wrapper raise `RuntimeError("Generator middleware did not yield")`; when it
yields, the first yielded value is the middleware's result and the generator
is resumed exactly once after that result completes. -/
theorem C8_generator_middleware :
    ∀ (yields : List Int),
      (yields = [] →
        Middleware.generator_middleware_run yields =
          (Except.error "Generator middleware did not yield", [])) ∧
      (∀ (y : Int) (rest : List Int), yields = y :: rest →
        (Middleware.generator_middleware_run yields).1 = Except.ok y ∧
        (Middleware.generator_middleware_run yields).2.length = 1) := by
  intro yields
  constructor
  · rintro rfl
    rfl
  · rintro y rest rfl
    exact ⟨rfl, rfl⟩

/-- Witness for C8 at a concrete generator: a middleware yielding `3`
returns `3` and resumes its generator exactly once. -/
theorem C8_generator_middleware_witness :
    (Middleware.generator_middleware_run ([3] : List Int)).1 = Except.ok 3 ∧
    (Middleware.generator_middleware_run ([3] : List Int)).2.length = 1 :=
  (C8_generator_middleware [3]).2 3 [] rfl

namespace AstNode

mutual

/-- Values with the same `source`-erasure are equal under `Node.__eq__`. -/
theorem nodeEq_of_stripSource :
    ∀ a b : NodeVal, stripSource a = stripSource b → nodeEq a b = true
  | .str a, .str b, h => by
      simp only [stripSource, NodeVal.str.injEq] at h
      simp [nodeEq, h]
  | .num a, .num b, h => by
      simp only [stripSource, NodeVal.num.injEq] at h
      simp [nodeEq, h]
  | .boolean a, .boolean b, h => by
      simp only [stripSource, NodeVal.boolean.injEq] at h
      simp [nodeEq, h]
  | .null, .null, _ => by simp [nodeEq]
  | .node k1 s1, .node k2 s2, h => by
      simp only [stripSource, NodeVal.node.injEq] at h
      simp [nodeEq, h.1, slotsEq_of_stripSlots s1 s2 h.2]
  | .arr a, .arr b, h => by
      simp only [stripSource, NodeVal.arr.injEq] at h
      simp [nodeEq, listEq_of_stripList a b h]
  | .str _, .num _, h => by simp [stripSource] at h
  | .str _, .boolean _, h => by simp [stripSource] at h
  | .str _, .null, h => by simp [stripSource] at h
  | .str _, .node _ _, h => by simp [stripSource] at h
  | .str _, .arr _, h => by simp [stripSource] at h
  | .num _, .str _, h => by simp [stripSource] at h
  | .num _, .boolean _, h => by simp [stripSource] at h
  | .num _, .null, h => by simp [stripSource] at h
  | .num _, .node _ _, h => by simp [stripSource] at h
  | .num _, .arr _, h => by simp [stripSource] at h
  | .boolean _, .str _, h => by simp [stripSource] at h
  | .boolean _, .num _, h => by simp [stripSource] at h
  | .boolean _, .null, h => by simp [stripSource] at h
  | .boolean _, .node _ _, h => by simp [stripSource] at h
  | .boolean _, .arr _, h => by simp [stripSource] at h
  | .null, .str _, h => by simp [stripSource] at h
  | .null, .num _, h => by simp [stripSource] at h
  | .null, .boolean _, h => by simp [stripSource] at h
  | .null, .node _ _, h => by simp [stripSource] at h
  | .null, .arr _, h => by simp [stripSource] at h
  | .node _ _, .str _, h => by simp [stripSource] at h
  | .node _ _, .num _, h => by simp [stripSource] at h
  | .node _ _, .boolean _, h => by simp [stripSource] at h
  | .node _ _, .null, h => by simp [stripSource] at h
  | .node _ _, .arr _, h => by simp [stripSource] at h
  | .arr _, .str _, h => by simp [stripSource] at h
  | .arr _, .num _, h => by simp [stripSource] at h
  | .arr _, .boolean _, h => by simp [stripSource] at h
  | .arr _, .null, h => by simp [stripSource] at h
  | .arr _, .node _ _, h => by simp [stripSource] at h

/-- Slot lists with the same `source`-erasure compare equal. -/
theorem slotsEq_of_stripSlots :
    ∀ s t : List (String × NodeVal),
      stripSlots s = stripSlots t → slotsEq s t = true
  | [], [], _ => by simp [slotsEq]
  | [], (n, v) :: t, h => by
      by_cases hn : n = "source"
      · have h' : stripSlots ([] : List (String × NodeVal)) = stripSlots t := by
          simpa [stripSlots, hn] using h
        have ih := slotsEq_of_stripSlots [] t h'
        simpa [slotsEq, hn] using ih
      · exact absurd h (by simp [stripSlots, hn])
  | (n, v) :: s, [], h => by
      by_cases hn : n = "source"
      · have h' : stripSlots s = stripSlots ([] : List (String × NodeVal)) := by
          simpa [stripSlots, hn] using h
        have ih := slotsEq_of_stripSlots s [] h'
        simpa [slotsEq, hn] using ih
      · exact absurd h (by simp [stripSlots, hn])
  | (n1, v1) :: s, (n2, v2) :: t, h => by
      by_cases h1 : n1 = "source"
      · have h' : stripSlots s = stripSlots ((n2, v2) :: t) := by
          simpa [stripSlots, h1] using h
        have ih := slotsEq_of_stripSlots s ((n2, v2) :: t) h'
        simpa [slotsEq, h1] using ih
      · by_cases h2 : n2 = "source"
        · have h' : stripSlots ((n1, v1) :: s) = stripSlots t := by
            rw [show stripSlots ((n2, v2) :: t) = stripSlots t by
              simp [stripSlots, h2]] at h
            exact h
          have ih := slotsEq_of_stripSlots ((n1, v1) :: s) t h'
          simpa [slotsEq, h1, h2] using ih
        · simp only [stripSlots, if_neg h1, if_neg h2, List.cons.injEq,
            Prod.mk.injEq] at h
          have ih := slotsEq_of_stripSlots s t h.2
          have hv := nodeEq_of_stripSource v1 v2 h.1.2
          simp [slotsEq, h1, h2, h.1.1, hv, ih]

/-- Value lists with the same `source`-erasure compare equal. -/
theorem listEq_of_stripList :
    ∀ a b : List NodeVal, stripList a = stripList b → listEq a b = true
  | [], [], _ => by simp [listEq]
  | [], _ :: _, h => by simp [stripList] at h
  | _ :: _, [], h => by simp [stripList] at h
  | a :: s, b :: t, h => by
      simp only [stripList, List.cons.injEq] at h
      simp [listEq, nodeEq_of_stripSource a b h.1, listEq_of_stripList s t h.2]

end

/-- The slot-list conversion is exactly the `_props` filter followed by the
recursive per-value conversion. -/
theorem slotsToDict_eq_props_map :
    ∀ slots : List (String × NodeVal),
      slotsToDict slots = (props slots).map fun p => (p.1, node_to_dict p.2) := by
  intro slots
  induction slots with
  | nil => simp [slotsToDict, props]
  | cons p rest ih =>
      obtain ⟨n, v⟩ := p
      by_cases hn : n = "source"
      · simp [slotsToDict, props, hn, List.filter_cons, ih]
      · simp only [slotsToDict, if_neg hn, ih, props, List.filter_cons]
        simp [hn]

/-- List-valued slots are converted element-wise. -/
theorem listToDict_eq_map :
    ∀ elems : List NodeVal, listToDict elems = elems.map node_to_dict := by
  intro elems
  induction elems with
  | nil => simp [listToDict]
  | cons v rest ih => simp [listToDict, ih]

end AstNode

/-- C9: `node_to_dict` turns a node into a dict with its class name under
`__kind__` and one recursively converted entry per slot except `source`
(lists element-wise, primitives as-is); `Node.__eq__` requires the same
concrete class and equal values on every slot except `source`, so values
that agree after erasing their `source` labels are equal. -/
theorem C9_node_to_dict_eq :
    (∀ (kind : String) (slots : List (String × AstNode.NodeVal)),
      AstNode.node_to_dict (AstNode.NodeVal.node kind slots) =
        AstNode.DictVal.dict
          (((AstNode.props slots).map fun p => (p.1, AstNode.node_to_dict p.2))
            ++ [("__kind__", AstNode.DictVal.str kind)])) ∧
    (∀ elems : List AstNode.NodeVal,
      AstNode.node_to_dict (AstNode.NodeVal.arr elems) =
        AstNode.DictVal.arr (elems.map AstNode.node_to_dict)) ∧
    (∀ s : String,
      AstNode.node_to_dict (AstNode.NodeVal.str s) = AstNode.DictVal.str s) ∧
    (∀ k1 s1 k2 s2,
      AstNode.nodeEq (AstNode.NodeVal.node k1 s1) (AstNode.NodeVal.node k2 s2)
        = true → k1 = k2) ∧
    (∀ a b : AstNode.NodeVal,
      AstNode.stripSource a = AstNode.stripSource b →
        AstNode.nodeEq a b = true) := by
  refine ⟨?_, ?_, ?_, ?_, AstNode.nodeEq_of_stripSource⟩
  · intro kind slots
    simp [AstNode.node_to_dict, AstNode.slotsToDict_eq_props_map]
  · intro elems
    simp [AstNode.node_to_dict, AstNode.listToDict_eq_map]
  · intro s
    simp [AstNode.node_to_dict]
  · intro k1 s1 k2 s2 h
    simp only [AstNode.nodeEq, Bool.and_eq_true, beq_iff_eq] at h
    exact h.1

/-- Witness for C9: two `Name` nodes that differ only in their `source`
label compare equal, and equality of two concrete nodes forces equal class
names. -/
theorem C9_node_to_dict_eq_witness :
    AstNode.nodeEq
      (AstNode.NodeVal.node "Name"
        [("source", AstNode.NodeVal.str "a"),
         ("loc", AstNode.NodeVal.null),
         ("value", AstNode.NodeVal.str "x")])
      (AstNode.NodeVal.node "Name"
        [("source", AstNode.NodeVal.str "b"),
         ("loc", AstNode.NodeVal.null),
         ("value", AstNode.NodeVal.str "x")]) = true :=
  C9_node_to_dict_eq.2.2.2.2
    (AstNode.NodeVal.node "Name"
      [("source", AstNode.NodeVal.str "a"),
       ("loc", AstNode.NodeVal.null),
       ("value", AstNode.NodeVal.str "x")])
    (AstNode.NodeVal.node "Name"
      [("source", AstNode.NodeVal.str "b"),
       ("loc", AstNode.NodeVal.null),
       ("value", AstNode.NodeVal.str "x")])
    (by simp [AstNode.stripSource, AstNode.stripSlots])

namespace GqlLang

/-- The line computed by the `index_to_loc` loop is the starting line count
plus the number of newlines strictly before the position, plus one. -/
theorem index_to_loc_loop_fst :
    ∀ (body : List Char) (pos lines cols : Nat), pos ≤ body.length →
      (index_to_loc_loop body pos lines cols).1 =
        lines + (body.take pos).count '\n' + 1 := by
  intro body
  induction body with
  | nil =>
      intro pos lines cols hpos
      have hz : pos = 0 := by simpa using hpos
      subst hz
      simp [index_to_loc_loop]
  | cons c rest ih =>
      intro pos lines cols hpos
      cases pos with
      | zero => simp [index_to_loc_loop]
      | succ p =>
          have hp : p ≤ rest.length := by simpa using hpos
          by_cases hc : c = '\n'
          · subst hc
            simp [index_to_loc_loop, ih p (lines + 1) 0 hp, List.count_cons]
            omega
          · simp [index_to_loc_loop, hc, ih p lines (cols + 1) hp,
              List.count_cons]

/-- When no newline occurs strictly before the position, the `index_to_loc`
loop lands on the starting line with column `cols + pos + 1`. -/
theorem index_to_loc_loop_no_nl :
    ∀ (body : List Char) (pos lines cols : Nat), pos ≤ body.length →
      '\n' ∉ body.take pos →
      index_to_loc_loop body pos lines cols = (lines + 1, cols + pos + 1) := by
  intro body
  induction body with
  | nil =>
      intro pos lines cols hpos _
      have hz : pos = 0 := by simpa using hpos
      subst hz
      simp [index_to_loc_loop]
  | cons c rest ih =>
      intro pos lines cols hpos hnl
      cases pos with
      | zero => simp [index_to_loc_loop]
      | succ p =>
          have hp : p ≤ rest.length := by simpa using hpos
          rw [List.take_succ_cons] at hnl
          have hc : c ≠ '\n' := fun h => hnl (h ▸ List.mem_cons_self c _)
          have hrest : '\n' ∉ rest.take p := fun h =>
        hnl (List.mem_cons_of_mem c h)
          have := ih p lines (cols + 1) hp hrest
          simp [index_to_loc_loop, hc, this]
          omega

/-- The column computed by the `index_to_loc` loop is always at least 1. -/
theorem index_to_loc_loop_snd_pos :
    ∀ (body : List Char) (pos lines cols : Nat),
      1 ≤ (index_to_loc_loop body pos lines cols).2 := by
  intro body
  induction body with
  | nil =>
      intro pos lines cols
      cases pos <;> simp [index_to_loc_loop]
  | cons c rest ih =>
      intro pos lines cols
      cases pos with
      | zero => simp [index_to_loc_loop]
      | succ p =>
          by_cases hc : c = '\n' <;> simp [index_to_loc_loop, hc, ih]

/-- Master synchronisation lemma between the two loops: starting both loops
on the same suffix of the body with coherent accumulators (`idx` characters
already consumed, `lines` newlines among them, `cols` characters since the
last newline), the `loc_to_index` loop run on the line and column computed
by the `index_to_loc` loop recovers the absolute offset `idx + pos` — as
long as the position is not just past a body that ends with a newline. -/
theorem loc_to_index_loop_roundtrip :
    ∀ (body : List Char) (pos lines cols idx total : Nat),
      body ≠ [] → pos ≤ body.length → idx + pos ≤ total →
      (pos < body.length ∨ body.getLast? ≠ some '\n') →
      (cols = 0 ∨ '\n' ∈ body.take pos) →
      loc_to_index_loop total
          ((index_to_loc_loop body pos lines cols).1 : Int)
          ((index_to_loc_loop body pos lines cols).2 : Int)
          body idx (lines : Int)
        = some ((idx : Int) + (pos : Int)) := by
  intro body
  induction body with
  | nil => intro pos lines cols idx total hne; exact absurd rfl hne
  | cons c rest ih =>
      intro pos lines cols idx total _ hlen htot hlast hcols
      cases pos with
      | zero =>
          have hc0 : cols = 0 := by
            rcases hcols with h | h
            · exact h
            · simp at h
          subst hc0
          simp only [index_to_loc_loop]
          rw [loc_to_index_loop]
          have htrig : ((lines : Nat) : Int) = ((lines + 1 : Nat) : Int) - 1 := by
            push_cast
            ring
          rw [if_pos htrig]
          have hguard : (idx : Int) + ((0 + 1 : Nat) : Int) - 1 ≤ (total : Int) := by
            push_cast
            omega
          rw [if_pos hguard]
          congr 1
          push_cast
          ring
      | succ p =>
          have hp : p ≤ rest.length := by simpa using hlen
          by_cases hnl : '\n' ∈ (c :: rest).take (p + 1)
          · -- a newline occurs before the position: the target line is a
            -- later one, so the check does not fire here and we recurse.
            by_cases hc : c = '\n'
            · subst hc
              -- the head newline is consumed: column restarts at 0.
              have hrestne : rest ≠ [] := by
                intro h
                subst h
                have hp0 : p = 0 := by simpa using hp
                subst hp0
                rcases hlast with h | h
                · simp at h
                · simp at h
              have hlast' : p < rest.length ∨ rest.getLast? ≠ some '\n' := by
                rcases hlast with h | h
                · left; simpa using h
                · right
                  obtain ⟨r, rs, rfl⟩ := List.exists_cons_of_ne_nil hrestne
                  simpa [List.getLast?_cons_cons] using h
              have hihp := ih p (lines + 1) 0 (idx + 1) total hrestne hp
                (by omega) hlast' (Or.inl rfl)
              have hblock :
                  index_to_loc_loop ('\n' :: rest) (p + 1) lines cols =
                    index_to_loc_loop rest p (lines + 1) 0 := by
                simp [index_to_loc_loop]
              rw [hblock]
              have hne : ((lines : Nat) : Int) ≠
                  ((index_to_loc_loop rest p (lines + 1) 0).1 : Int) - 1 := by
                rw [index_to_loc_loop_fst rest p (lines + 1) 0 hp]
                push_cast
                omega
              rw [loc_to_index_loop, if_neg hne]
              rw [if_pos rfl]
              rw [show ((lines : Nat) : Int) + 1 = ((lines + 1 : Nat) : Int) by
                push_cast; ring]
              rw [hihp]
              congr 1
              push_cast
              ring
            · -- a non-newline head: it lies before the target line, the
              -- column accumulator grows and we recurse.
              have hmem : '\n' ∈ rest.take p := by
                rcases List.mem_cons.mp (by simpa [List.take_succ_cons] using hnl)
                  with h | h
                · exact absurd h.symm hc
                · exact h
              have hrestne : rest ≠ [] := by
                intro h
                subst h
                simp at hmem
              have hlast' : p < rest.length ∨ rest.getLast? ≠ some '\n' := by
                rcases hlast with h | h
                · left; simpa using h
                · right
                  obtain ⟨r, rs, rfl⟩ := List.exists_cons_of_ne_nil hrestne
                  simpa [List.getLast?_cons_cons] using h
              have hihp := ih p lines (cols + 1) (idx + 1) total hrestne hp
                (by omega) hlast' (Or.inr hmem)
              have hblock :
                  index_to_loc_loop (c :: rest) (p + 1) lines cols =
                    index_to_loc_loop rest p lines (cols + 1) := by
                simp [index_to_loc_loop, hc]
              rw [hblock]
              have hne : ((lines : Nat) : Int) ≠
                  ((index_to_loc_loop rest p lines (cols + 1)).1 : Int) - 1 := by
                rw [index_to_loc_loop_fst rest p lines (cols + 1) hp]
                have hcnt : 0 < (rest.take p).count '\n' :=
                  List.count_pos_iff.mpr hmem
                push_cast
                omega
              rw [loc_to_index_loop, if_neg hne]
              rw [if_neg hc]
              rw [hihp]
              congr 1
              push_cast
              ring
          · -- no newline before the position: the target is the current
            -- line, the check fires immediately with column cols + pos + 1.
            have hc0 : cols = 0 := by
              rcases hcols with h | h
              · exact h
              · exact absurd h hnl
            subst hc0
            have hform := index_to_loc_loop_no_nl (c :: rest) (p + 1) lines 0
              (by simpa using hlen) hnl
            rw [hform]
            rw [loc_to_index_loop]
            have htrig : ((lines : Nat) : Int) = ((lines + 1 : Nat) : Int) - 1 := by
              push_cast
              ring
            rw [if_pos htrig]
            have hguard : (idx : Int) + ((0 + (p + 1) + 1 : Nat) : Int) - 1 ≤
                (total : Int) := by
              push_cast
              omega
            rw [if_pos hguard]
            congr 1
            push_cast
            ring

end GqlLang

/-- C10 (counterexample): for the body `"\n"` at position `1` (the body
length), `index_to_loc` returns `(2, 1)` but `loc_to_index` raises
`IndexError` on that pair — its loop never reaches an index on the final
empty line — so the stated round-trip fails at `position = len(body)` when
the body ends with a newline. -/
theorem C10_roundtrip_counterexample :
    GqlLang.index_to_loc ['\n'] 1 = Except.ok (2, 1) ∧
    GqlLang.loc_to_index ['\n'] ((2 : Int), (1 : Int)) =
      Except.error "IndexError" := by
  constructor
  · rfl
  · rfl

/-- C10 (amended): for every position at most the body length,
`index_to_loc` returns a 1-based `(line, column)` pair, and
`loc_to_index` maps that pair back to the position provided the position is
strictly inside the body or the body does not end with a newline (at
`position = len(body)` on a newline-terminated body, `loc_to_index` raises
`IndexError` instead); for every position strictly greater than the body
length, `index_to_loc` raises `IndexError`. -/
theorem C10_index_to_loc_roundtrip :
    (∀ (body : List Char) (pos : Nat), pos ≤ body.length →
      ∃ l c : Nat, GqlLang.index_to_loc body pos = Except.ok (l, c) ∧
        1 ≤ l ∧ 1 ≤ c ∧
        ((pos < body.length ∨ body.getLast? ≠ some '\n') →
          GqlLang.loc_to_index body ((l : Int), (c : Int)) =
            Except.ok (pos : Int))) ∧
    (∀ (body : List Char) (pos : Nat), body.length < pos →
      GqlLang.index_to_loc body pos = Except.error "IndexError") := by
  constructor
  · intro body pos hpos
    by_cases hbody : body = []
    · subst hbody
      have hz : pos = 0 := by simpa using hpos
      subst hz
      refine ⟨1, 1, ?_, le_refl 1, le_refl 1, ?_⟩
      · simp [GqlLang.index_to_loc]
      · intro _
        simp [GqlLang.loc_to_index]
    · refine ⟨(GqlLang.index_to_loc_loop body pos 0 0).1,
        (GqlLang.index_to_loc_loop body pos 0 0).2, ?_, ?_, ?_, ?_⟩
      · rw [GqlLang.index_to_loc, if_neg (fun h => hbody h.1),
          if_neg (by omega)]
      · rw [GqlLang.index_to_loc_loop_fst body pos 0 0 hpos]
        omega
      · exact GqlLang.index_to_loc_loop_snd_pos body pos 0 0
      · intro hlast
        have hrt := GqlLang.loc_to_index_loop_roundtrip body pos 0 0 0
          body.length hbody hpos (by omega) hlast (Or.inl rfl)
        rw [GqlLang.loc_to_index,
          if_neg (fun h => hbody h.1)]
        simp only [Nat.cast_zero] at hrt
        rw [hrt]
        norm_num
  · intro body pos hpos
    rw [GqlLang.index_to_loc, if_neg (fun h => by omega),
      if_pos hpos]

/-- Witness for C10 on the body `"a"` at position `1`: `index_to_loc`
yields `(1, 2)` and `loc_to_index` maps it back to `1`. -/
theorem C10_index_to_loc_roundtrip_witness :
    GqlLang.loc_to_index ['a'] ((1 : Int), (2 : Int)) = Except.ok (1 : Int) := by
  obtain ⟨l, c, h1, -, -, h2⟩ :=
    C10_index_to_loc_roundtrip.1 ['a'] 1 (by decide)
  have hlc : GqlLang.index_to_loc ['a'] 1 = Except.ok (1, 2) := by rfl
  rw [h1] at hlc
  have hpair : (l, c) = ((1 : Nat), (2 : Nat)) := by
    injection hlc
  have h3 : l = 1 := congrArg Prod.fst hpair
  have h4 : c = 2 := congrArg Prod.snd hpair
  have hres := h2 (Or.inr (by decide))
  rw [h3, h4] at hres
  simpa using hres

namespace SDLBuild

theorem extractAux_ok_iff :
    ∀ (defs : List SDLDef) (acc : ExtractResult),
      (∃ r, extractAux acc defs = Except.ok r) ↔
        ((schemaDefs defs ≠ [] → acc.schemaDefinition = none) ∧
         (schemaDefs defs).length ≤ 1 ∧
         (typeDefNames defs).Nodup ∧
         (∀ n ∈ typeDefNames defs,
           (acc.types.any fun p => p.1 == n) = false) ∧
         (directiveNames defs).Nodup ∧
         (∀ n ∈ directiveNames defs,
           (acc.directives.any fun p => p.1 == n) = false)) := by
  intro defs
  induction defs with
  | nil =>
      intro acc
      simp [extractAux, schemaDefs, typeDefNames, typeDefEntries,
        directiveNames, directiveEntries]
  | cons d rest ih =>
      intro acc
      cases d with
      | schemaDef ops =>
          have hsd : schemaDefs (SDLDef.schemaDef ops :: rest) =
              ops :: schemaDefs rest := rfl
          have htn : typeDefNames (SDLDef.schemaDef ops :: rest) =
              typeDefNames rest := rfl
          have hdn : directiveNames (SDLDef.schemaDef ops :: rest) =
              directiveNames rest := rfl
          rcases hs : acc.schemaDefinition with - | s
          · have hstep : extractAux acc (SDLDef.schemaDef ops :: rest) =
                extractAux { acc with schemaDefinition := some ops } rest := by
              simp [extractAux, hs]
            rw [hstep, ih, hsd, htn, hdn]
            constructor
            · rintro ⟨h1, h2, h3, h4, h5, h6⟩
              have hrest : schemaDefs rest = [] := by
                by_contra hne
                simpa using h1 hne
              exact ⟨fun _ => rfl, by simp [hrest], h3, h4, h5, h6⟩
            · rintro ⟨h1, h2, h3, h4, h5, h6⟩
              have hrest : schemaDefs rest = [] := by
                rcases hsr : schemaDefs rest with - | ⟨a, l⟩
                · rfl
                · rw [hsr] at h2
                  simp at h2
              exact ⟨fun hne => absurd hrest hne, by simp [hrest], h3, h4,
                h5, h6⟩
          · have hstep : extractAux acc (SDLDef.schemaDef ops :: rest) =
                Except.error "Must provide only one schema definition" := by
              simp [extractAux, hs]
            rw [hstep]
            constructor
            · rintro ⟨r, hr⟩
              exact Except.noConfusion hr
            · rintro ⟨h1, -, -, -, -, -⟩
              have h0 := h1 (by rw [hsd]; exact List.cons_ne_nil _ _)
              exact Option.noConfusion h0
      | typeDef t =>
          have hsd : schemaDefs (SDLDef.typeDef t :: rest) =
              schemaDefs rest := rfl
          have htn : typeDefNames (SDLDef.typeDef t :: rest) =
              t.name :: typeDefNames rest := rfl
          have hdn : directiveNames (SDLDef.typeDef t :: rest) =
              directiveNames rest := rfl
          cases ha : acc.types.any fun p => p.1 == t.name with
          | false =>
              have hstep : extractAux acc (SDLDef.typeDef t :: rest) =
                  extractAux { acc with types := acc.types ++ [(t.name, t)] }
                    rest := by
                simp [extractAux, ha]
              rw [hstep, ih, hsd, htn, hdn]
              constructor
              · rintro ⟨h1, h2, h3, h4, h5, h6⟩
                have hnm : t.name ∉ typeDefNames rest := by
                  intro hmem
                  have h0 := h4 t.name hmem
                  simp [List.any_append] at h0
                refine ⟨h1, h2, List.nodup_cons.mpr ⟨hnm, h3⟩, ?_, h5, h6⟩
                intro n hn
                rcases List.mem_cons.mp hn with rfl | hn'
                · exact ha
                · have h0 := h4 n hn'
                  simp only [List.any_append, Bool.or_eq_false_iff] at h0
                  exact h0.1
              · rintro ⟨h1, h2, h3, h4, h5, h6⟩
                obtain ⟨hnm, h3'⟩ := List.nodup_cons.mp h3
                refine ⟨h1, h2, h3', ?_, h5, h6⟩
                intro n hn
                have hacc := h4 n (List.mem_cons_of_mem _ hn)
                simp only [List.any_append, Bool.or_eq_false_iff]
                refine ⟨hacc, ?_⟩
                simp only [List.any_cons, List.any_nil, Bool.or_false,
                  beq_eq_false_iff_ne, ne_eq]
                rintro rfl
                exact hnm hn
          | true =>
              have hstep : extractAux acc (SDLDef.typeDef t :: rest) =
                  Except.error ("Duplicate type " ++ t.name) := by
                simp [extractAux, ha]
              rw [hstep]
              constructor
              · rintro ⟨r, hr⟩
                exact Except.noConfusion hr
              · rintro ⟨-, -, -, h4, -, -⟩
                have h0 := h4 t.name (by rw [htn]; exact List.mem_cons_self _ _)
                rw [ha] at h0
                exact Bool.noConfusion h0
      | typeExt e =>
          have hstep : extractAux acc (SDLDef.typeExt e :: rest) =
              extractAux
                { acc with
                  extensions := fun n =>
                    if n = e.name then acc.extensions n ++ [e]
                    else acc.extensions n } rest := by
            simp [extractAux]
          rw [hstep, ih]
          exact Iff.rfl
      | directiveDef dd =>
          have hsd : schemaDefs (SDLDef.directiveDef dd :: rest) =
              schemaDefs rest := rfl
          have htn : typeDefNames (SDLDef.directiveDef dd :: rest) =
              typeDefNames rest := rfl
          have hdn : directiveNames (SDLDef.directiveDef dd :: rest) =
              dd.name :: directiveNames rest := rfl
          cases ha : acc.directives.any fun p => p.1 == dd.name with
          | false =>
              have hstep : extractAux acc (SDLDef.directiveDef dd :: rest) =
                  extractAux
                    { acc with
                      directives := acc.directives ++ [(dd.name, dd)] }
                    rest := by
                simp [extractAux, ha]
              rw [hstep, ih, hsd, htn, hdn]
              constructor
              · rintro ⟨h1, h2, h3, h4, h5, h6⟩
                have hnm : dd.name ∉ directiveNames rest := by
                  intro hmem
                  have h0 := h6 dd.name hmem
                  simp [List.any_append] at h0
                refine ⟨h1, h2, h3, h4, List.nodup_cons.mpr ⟨hnm, h5⟩, ?_⟩
                intro n hn
                rcases List.mem_cons.mp hn with rfl | hn'
                · exact ha
                · have h0 := h6 n hn'
                  simp only [List.any_append, Bool.or_eq_false_iff] at h0
                  exact h0.1
              · rintro ⟨h1, h2, h3, h4, h5, h6⟩
                obtain ⟨hnm, h5'⟩ := List.nodup_cons.mp h5
                refine ⟨h1, h2, h3, h4, h5', ?_⟩
                intro n hn
                have hacc := h6 n (List.mem_cons_of_mem _ hn)
                simp only [List.any_append, Bool.or_eq_false_iff]
                refine ⟨hacc, ?_⟩
                simp only [List.any_cons, List.any_nil, Bool.or_false,
                  beq_eq_false_iff_ne, ne_eq]
                rintro rfl
                exact hnm hn
          | true =>
              have hstep : extractAux acc (SDLDef.directiveDef dd :: rest) =
                  Except.error ("Duplicate directive @" ++ dd.name) := by
                simp [extractAux, ha]
              rw [hstep]
              constructor
              · rintro ⟨r, hr⟩
                exact Except.noConfusion hr
              · rintro ⟨-, -, -, -, -, h6⟩
                have h0 := h6 dd.name
                  (by rw [hdn]; exact List.mem_cons_self _ _)
                rw [ha] at h0
                exact Bool.noConfusion h0
      | otherDef =>
          have hstep : extractAux acc (SDLDef.otherDef :: rest) =
              extractAux acc rest := by
            simp [extractAux]
          rw [hstep, ih]
          exact Iff.rfl

theorem extractAux_ok_eq :
    ∀ (defs : List SDLDef) (acc r : ExtractResult),
      extractAux acc defs = Except.ok r →
        r.schemaDefinition = orO acc.schemaDefinition (schemaDefs defs).head? ∧
        r.types = acc.types ++ typeDefEntries defs ∧
        (∀ n, r.extensions n = acc.extensions n ++ extEntries n defs) ∧
        r.directives = acc.directives ++ directiveEntries defs := by
  intro defs
  induction defs with
  | nil =>
      intro acc r hr
      have : acc = r := by
        simpa [extractAux] using hr
      subst this
      refine ⟨?_, by simp [typeDefEntries], ?_, by simp [directiveEntries]⟩
      · cases acc.schemaDefinition <;> simp [orO, schemaDefs]
      · intro n
        simp [extEntries]
  | cons d rest ih =>
      intro acc r hr
      cases d with
      | schemaDef ops =>
          rcases hs : acc.schemaDefinition with - | s
          · rw [show extractAux acc (SDLDef.schemaDef ops :: rest) =
                extractAux { acc with schemaDefinition := some ops } rest by
              simp [extractAux, hs]] at hr
            obtain ⟨e1, e2, e3, e4⟩ := ih _ r hr
            exact ⟨by simpa [orO] using e1, e2, e3, e4⟩
          · rw [show extractAux acc (SDLDef.schemaDef ops :: rest) =
                Except.error "Must provide only one schema definition" by
              simp [extractAux, hs]] at hr
            exact Except.noConfusion hr
      | typeDef t =>
          cases ha : acc.types.any fun p => p.1 == t.name with
          | false =>
              rw [show extractAux acc (SDLDef.typeDef t :: rest) =
                  extractAux { acc with types := acc.types ++ [(t.name, t)] }
                    rest by simp [extractAux, ha]] at hr
              obtain ⟨e1, e2, e3, e4⟩ := ih _ r hr
              refine ⟨e1, ?_, e3, e4⟩
              rw [e2]
              simp [typeDefEntries]
          | true =>
              rw [show extractAux acc (SDLDef.typeDef t :: rest) =
                  Except.error ("Duplicate type " ++ t.name) by
                simp [extractAux, ha]] at hr
              exact Except.noConfusion hr
      | typeExt e =>
          rw [show extractAux acc (SDLDef.typeExt e :: rest) =
              extractAux
                { acc with
                  extensions := fun n =>
                    if n = e.name then acc.extensions n ++ [e]
                    else acc.extensions n } rest by simp [extractAux]] at hr
          obtain ⟨e1, e2, e3, e4⟩ := ih _ r hr
          refine ⟨e1, e2, ?_, e4⟩
          intro n
          rw [e3 n]
          by_cases hn : n = e.name
          · simp [extEntries, hn]
          · simp [extEntries, hn]
      | directiveDef dd =>
          cases ha : acc.directives.any fun p => p.1 == dd.name with
          | false =>
              rw [show extractAux acc (SDLDef.directiveDef dd :: rest) =
                  extractAux
                    { acc with
                      directives := acc.directives ++ [(dd.name, dd)] }
                    rest by simp [extractAux, ha]] at hr
              obtain ⟨e1, e2, e3, e4⟩ := ih _ r hr
              refine ⟨e1, e2, e3, ?_⟩
              rw [e4]
              simp [directiveEntries]
          | true =>
              rw [show extractAux acc (SDLDef.directiveDef dd :: rest) =
                  Except.error ("Duplicate directive @" ++ dd.name) by
                simp [extractAux, ha]] at hr
              exact Except.noConfusion hr
      | otherDef =>
          rw [show extractAux acc (SDLDef.otherDef :: rest) =
              extractAux acc rest by simp [extractAux]] at hr
          obtain ⟨e1, e2, e3, e4⟩ := ih _ r hr
          exact ⟨e1, e2, e3, e4⟩

end SDLBuild

/-- C5: the extraction pass fails with `SDLError` exactly on documents with
a second schema definition, a duplicate type name, or a duplicate directive
name; otherwise it partitions the definitions into the schema definition,
the name-keyed type-definition map, the name-grouped extension lists and
the name-keyed directive-definition map. -/
theorem C5_extract_partition :
    (∀ defs : List SDLBuild.SDLDef,
      (∃ r, SDLBuild._extract_type defs = Except.ok r) ↔
        ((SDLBuild.schemaDefs defs).length ≤ 1 ∧
         (SDLBuild.typeDefNames defs).Nodup ∧
         (SDLBuild.directiveNames defs).Nodup)) ∧
    (∀ (defs : List SDLBuild.SDLDef) (r : SDLBuild.ExtractResult),
      SDLBuild._extract_type defs = Except.ok r →
        r.schemaDefinition = (SDLBuild.schemaDefs defs).head? ∧
        r.types = SDLBuild.typeDefEntries defs ∧
        (∀ n, r.extensions n = SDLBuild.extEntries n defs) ∧
        r.directives = SDLBuild.directiveEntries defs) := by
  constructor
  · intro defs
    rw [SDLBuild._extract_type, SDLBuild.extractAux_ok_iff]
    simp
  · intro defs r hr
    obtain ⟨e1, e2, e3, e4⟩ :=
      SDLBuild.extractAux_ok_eq defs _ r hr
    refine ⟨?_, by simpa using e2, ?_, by simpa using e4⟩
    · simpa [SDLBuild.orO] using e1
    · intro n
      simpa using e3 n

/-- Witness for C5 on a one-definition document: extraction succeeds and
keys the single scalar definition under its name. -/
theorem C5_extract_partition_witness :
    ({ schemaDefinition := none,
       types := [("Date", SDLBuild.TypeDefNode.scalarDef "Date" none)],
       extensions := fun _ => [], directives := [] } :
        SDLBuild.ExtractResult).types =
      SDLBuild.typeDefEntries
        [SDLBuild.SDLDef.typeDef (SDLBuild.TypeDefNode.scalarDef "Date" none)] :=
  (C5_extract_partition.2
    [SDLBuild.SDLDef.typeDef (SDLBuild.TypeDefNode.scalarDef "Date" none)]
    { schemaDefinition := none,
      types := [("Date", SDLBuild.TypeDefNode.scalarDef "Date" none)],
      extensions := fun _ => [], directives := [] } rfl).2.1

/-- C1 (code evaluated at the failing input): for the document
`enum Color { RED }` with `extend enum Color { BLUE }`, extraction groups
the `EnumTypeExtension` under `Color`, and materialising the enum raises
`SDLError("Expected an UnionTypeExtension node for UnionType Color")`
instead of appending the extension's values — the enum branch checks for
`UnionTypeExtension` where the matching kind is `EnumTypeExtension`. -/
theorem C1_enum_extension_rejected :
    (SDLBuild._extract_type
        [SDLBuild.SDLDef.typeDef
          (SDLBuild.TypeDefNode.enumDef "Color" none [⟨"RED", none⟩]),
         SDLBuild.SDLDef.typeExt
          (SDLBuild.TypeExtNode.enumExt "Color" [⟨"BLUE", none⟩])]).map
      (fun r =>
        SDLBuild.type_from_definition r.extensions
          (SDLBuild.TypeDefNode.enumDef "Color" none [⟨"RED", none⟩])) =
    Except.ok
      (Except.error
        (SDLBuild.PyErr.sdl
          "Expected an UnionTypeExtension node for UnionType Color")) := by
  rfl

/-- C6: scalar-type extensions are silently ignored: materialising a scalar
definition never consults the grouped extensions and always succeeds, so a
document with a `ScalarTypeExtension` builds the same scalar type as the
identical document without it, with no `SDLError`. -/
theorem C6_scalar_extension_ignored :
    (∀ (extMap : String → List SDLBuild.TypeExtNode)
        (name : String) (description : Option String),
      SDLBuild.type_from_definition extMap
          (SDLBuild.TypeDefNode.scalarDef name description) =
        Except.ok (SDLBuild.BuiltType.scalar name description)) ∧
    (SDLBuild._extract_type
        [SDLBuild.SDLDef.typeDef (SDLBuild.TypeDefNode.scalarDef "Date" none),
         SDLBuild.SDLDef.typeExt (SDLBuild.TypeExtNode.scalarExt "Date")]).map
      (fun r =>
        SDLBuild.type_from_definition r.extensions
          (SDLBuild.TypeDefNode.scalarDef "Date" none)) =
    (SDLBuild._extract_type
        [SDLBuild.SDLDef.typeDef
          (SDLBuild.TypeDefNode.scalarDef "Date" none)]).map
      (fun r =>
        SDLBuild.type_from_definition r.extensions
          (SDLBuild.TypeDefNode.scalarDef "Date" none)) := by
  exact ⟨fun extMap name description => rfl, rfl⟩

namespace SDLBuild

/-- The operation-type loop succeeds from a given accumulator exactly when
the declared operations are distinct, disjoint from the accumulator, and
all their types are registered. -/
theorem opTypesAux_ok_iff :
    ∀ {α : Type} (opdefs : List (String × String))
      (typeMap : List (String × α)) (acc : List (String × Option α)),
      (∃ r, opTypesAux typeMap opdefs acc = Except.ok r) ↔
        ((opdefs.map Prod.fst).Nodup ∧
         (∀ n ∈ opdefs.map Prod.fst, (acc.any fun p => p.1 == n) = false) ∧
         (∀ p ∈ opdefs, (lookupType typeMap p.2).isSome)) := by
  intro α opdefs typeMap
  induction opdefs with
  | nil =>
      intro acc
      simp [opTypesAux]
  | cons od rest ih =>
      intro acc
      obtain ⟨op, tyName⟩ := od
      cases ha : acc.any fun p => p.1 == op with
      | false =>
          cases hl : lookupType typeMap tyName with
          | none =>
              rw [show opTypesAux typeMap ((op, tyName) :: rest) acc =
                  Except.error
                    (op ++ " type " ++ tyName ++ " not found in document") by
                simp [opTypesAux, ha, hl]]
              constructor
              · rintro ⟨r, hr⟩
                exact Except.noConfusion hr
              · rintro ⟨-, -, h3⟩
                have h0 := h3 (op, tyName) (List.mem_cons_self _ _)
                rw [hl] at h0
                simp at h0
          | some t =>
              rw [show opTypesAux typeMap ((op, tyName) :: rest) acc =
                  opTypesAux typeMap rest (acc ++ [(op, some t)]) by
                simp [opTypesAux, ha, hl]]
              rw [ih]
              constructor
              · rintro ⟨h1, h2, h3⟩
                have hnm : op ∉ rest.map Prod.fst := by
                  intro hmem
                  have h0 := h2 op hmem
                  simp [List.any_append] at h0
                refine ⟨List.nodup_cons.mpr ⟨hnm, h1⟩, ?_, ?_⟩
                · intro n hn
                  rcases List.mem_cons.mp hn with rfl | hn'
                  · exact ha
                  · have h0 := h2 n hn'
                    simp only [List.any_append, Bool.or_eq_false_iff] at h0
                    exact h0.1
                · intro p hp
                  rcases List.mem_cons.mp hp with rfl | hp'
                  · simp [hl]
                  · exact h3 p hp'
              · rintro ⟨h1, h2, h3⟩
                obtain ⟨hnm, h1'⟩ := List.nodup_cons.mp h1
                refine ⟨h1', ?_, ?_⟩
                · intro n hn
                  have hacc := h2 n (List.mem_cons_of_mem _ hn)
                  simp only [List.any_append, Bool.or_eq_false_iff]
                  refine ⟨hacc, ?_⟩
                  simp only [List.any_cons, List.any_nil, Bool.or_false,
                    beq_eq_false_iff_ne, ne_eq]
                  rintro rfl
                  exact hnm hn
                · intro p hp
                  exact h3 p (List.mem_cons_of_mem _ hp)
      | true =>
          rw [show opTypesAux typeMap ((op, tyName) :: rest) acc =
              Except.error ("Can only define one " ++ op ++ " in schema") by
            simp [opTypesAux, ha]]
          constructor
          · rintro ⟨r, hr⟩
            exact Except.noConfusion hr
          · rintro ⟨-, h2, -⟩
            have h0 := h2 op (by simp)
            rw [ha] at h0
            exact Bool.noConfusion h0

/-- On success the operation-type loop maps every declared operation to the
registered type its declaration names, after the accumulator. -/
theorem opTypesAux_ok_eq :
    ∀ {α : Type} (opdefs : List (String × String))
      (typeMap : List (String × α)) (acc r : List (String × Option α)),
      opTypesAux typeMap opdefs acc = Except.ok r →
        r = acc ++ opdefs.map fun p => (p.1, lookupType typeMap p.2) := by
  intro α opdefs typeMap
  induction opdefs with
  | nil =>
      intro acc r hr
      have : acc = r := by simpa [opTypesAux] using hr
      simp [this.symm]
  | cons od rest ih =>
      intro acc r hr
      obtain ⟨op, tyName⟩ := od
      cases ha : acc.any fun p => p.1 == op with
      | false =>
          cases hl : lookupType typeMap tyName with
          | none =>
              rw [show opTypesAux typeMap ((op, tyName) :: rest) acc =
                  Except.error
                    (op ++ " type " ++ tyName ++ " not found in document") by
                simp [opTypesAux, ha, hl]] at hr
              exact Except.noConfusion hr
          | some t =>
              rw [show opTypesAux typeMap ((op, tyName) :: rest) acc =
                  opTypesAux typeMap rest (acc ++ [(op, some t)]) by
                simp [opTypesAux, ha, hl]] at hr
              have h0 := ih _ r hr
              rw [h0]
              simp [hl]
      | true =>
          rw [show opTypesAux typeMap ((op, tyName) :: rest) acc =
              Except.error ("Can only define one " ++ op ++ " in schema") by
            simp [opTypesAux, ha]] at hr
          exact Except.noConfusion hr

end SDLBuild

/-- C4: without a schema definition the operation types come from looking
up the capitalised names `Query`, `Mutation`, `Subscription` in the type
map, a missing one being mapped to `None`; with a schema definition, a
repeated operation kind or an operation type absent from the document
raises `SDLError`, and otherwise each declared operation maps to the named
registered type. -/
theorem C4_operation_types :
    (∀ (α : Type) (typeMap : List (String × α)),
      SDLBuild._operation_types none typeMap =
        Except.ok
          [("query", SDLBuild.lookupType typeMap "Query"),
           ("mutation", SDLBuild.lookupType typeMap "Mutation"),
           ("subscription", SDLBuild.lookupType typeMap "Subscription")]) ∧
    (∀ (α : Type) (typeMap : List (String × α))
        (opdefs : List (String × String)),
      (∃ r, SDLBuild._operation_types (some opdefs) typeMap = Except.ok r) ↔
        ((opdefs.map Prod.fst).Nodup ∧
         ∀ p ∈ opdefs, (SDLBuild.lookupType typeMap p.2).isSome)) ∧
    (∀ (α : Type) (typeMap : List (String × α))
        (opdefs : List (String × String)) (r : List (String × Option α)),
      SDLBuild._operation_types (some opdefs) typeMap = Except.ok r →
        r = opdefs.map fun p => (p.1, SDLBuild.lookupType typeMap p.2)) := by
  refine ⟨?_, ?_, ?_⟩
  · intro α typeMap
    have hq : SDLBuild.pyCapitalize "query" = "Query" := by decide
    have hm : SDLBuild.pyCapitalize "mutation" = "Mutation" := by decide
    have hs : SDLBuild.pyCapitalize "subscription" = "Subscription" := by
      decide
    rw [SDLBuild._operation_types, hq, hm, hs]
  · intro α typeMap opdefs
    rw [show SDLBuild._operation_types (some opdefs) typeMap =
        SDLBuild.opTypesAux typeMap opdefs [] from rfl,
      SDLBuild.opTypesAux_ok_iff]
    simp
  · intro α typeMap opdefs r hr
    simpa using SDLBuild.opTypesAux_ok_eq opdefs typeMap [] r hr

/-- Witness for C4 on the schema definition `schema { query: Q }` over the
type map `{Q: 0}`: the single declared operation maps to the registered
type. -/
theorem C4_operation_types_witness :
    ([("query", some 0)] : List (String × Option Nat)) =
      [("query", "Q")].map
        fun p => (p.1, SDLBuild.lookupType [("Q", (0 : Nat))] p.2) :=
  C4_operation_types.2.2 Nat [("Q", 0)] [("query", "Q")]
    [("query", some 0)] rfl

namespace TypeInfo

/-- Shape equality is transitive. -/
theorem sameShape_trans {a b c : TIState} (h1 : sameShape a b)
    (h2 : sameShape b c) : sameShape a c := by
  obtain ⟨x1, x2, x3, x4, x5⟩ := h1
  obtain ⟨y1, y2, y3, y4, y5⟩ := h2
  exact ⟨x1.trans y1, x2.trans y2, x3.trans y3, x4.trans y4, x5.trans y5⟩

/-- A pop on a nonempty list succeeds and shortens it by one. -/
theorem popE_ok {β : Type} :
    ∀ l : List β, l.length ≠ 0 →
      ∃ l', popE l = Except.ok l' ∧ l'.length + 1 = l.length := by
  intro l h
  cases l with
  | nil => exact absurd rfl h
  | cons a t => exact ⟨t, rfl, rfl⟩

/-- `_leave_input_value` succeeds on nonempty input stacks and pops one
element from each. -/
theorem _leave_input_value_ok :
    ∀ s : TIState, s.input_type_stack.length ≠ 0 →
      s.input_value_def_stack.length ≠ 0 →
      ∃ s', _leave_input_value s = Except.ok s' ∧
        s'.type_stack = s.type_stack ∧
        s'.parent_type_stack = s.parent_type_stack ∧
        s'.input_type_stack.length + 1 = s.input_type_stack.length ∧
        s'.field_stack = s.field_stack ∧
        s'.input_value_def_stack.length + 1 =
          s.input_value_def_stack.length := by
  intro s h1 h2
  obtain ⟨it, hit, hitl⟩ := popE_ok s.input_type_stack h1
  obtain ⟨iv, hiv, hivl⟩ := popE_ok s.input_value_def_stack h2
  refine ⟨{ s with input_type_stack := it, input_value_def_stack := iv },
    ?_, rfl, rfl, hitl, rfl, hivl⟩
  simp only [_leave_input_value, hit, hiv]
  rfl

/-- `leave_argument` succeeds on nonempty input stacks and pops one
element from each. -/
theorem leave_argument_ok :
    ∀ s : TIState, s.input_type_stack.length ≠ 0 →
      s.input_value_def_stack.length ≠ 0 →
      ∃ s', leave_argument s = Except.ok s' ∧
        s'.type_stack = s.type_stack ∧
        s'.parent_type_stack = s.parent_type_stack ∧
        s'.input_type_stack.length + 1 = s.input_type_stack.length ∧
        s'.field_stack = s.field_stack ∧
        s'.input_value_def_stack.length + 1 =
          s.input_value_def_stack.length := by
  intro s h1 h2
  obtain ⟨s', h, e1, e2, e3, e4, e5⟩ :=
    _leave_input_value_ok { s with argument := none } h1 h2
  exact ⟨s', h, e1, e2, e3, e4, e5⟩

/-- `leave_field` succeeds on nonempty type and field stacks and pops one
element from each. -/
theorem leave_field_ok :
    ∀ s : TIState, s.type_stack.length ≠ 0 → s.field_stack.length ≠ 0 →
      ∃ s', leave_field s = Except.ok s' ∧
        s'.type_stack.length + 1 = s.type_stack.length ∧
        s'.parent_type_stack = s.parent_type_stack ∧
        s'.input_type_stack = s.input_type_stack ∧
        s'.field_stack.length + 1 = s.field_stack.length ∧
        s'.input_value_def_stack = s.input_value_def_stack := by
  intro s h1 h2
  obtain ⟨t, ht, htl⟩ := popE_ok s.type_stack h1
  obtain ⟨f, hf, hfl⟩ := popE_ok s.field_stack h2
  refine ⟨{ s with type_stack := t, field_stack := f },
    ?_, htl, rfl, rfl, hfl, rfl⟩
  simp only [leave_field, ht, hf]
  rfl

/-- `leave_selection_set` succeeds on a nonempty parent-type stack and
pops one element. -/
theorem leave_selection_set_ok :
    ∀ s : TIState, s.parent_type_stack.length ≠ 0 →
      ∃ s', leave_selection_set s = Except.ok s' ∧
        s'.type_stack = s.type_stack ∧
        s'.parent_type_stack.length + 1 = s.parent_type_stack.length ∧
        s'.input_type_stack = s.input_type_stack ∧
        s'.field_stack = s.field_stack ∧
        s'.input_value_def_stack = s.input_value_def_stack := by
  intro s h1
  obtain ⟨pt, hpt, hptl⟩ := popE_ok s.parent_type_stack h1
  refine ⟨{ s with parent_type_stack := pt }, ?_, rfl, hptl, rfl, rfl, rfl⟩
  simp only [leave_selection_set, hpt]
  rfl

/-- A type-stack pop (`leave_operation_definition`,
`leave_fragment_definition`, `leave_inline_fragment`) succeeds on a
nonempty type stack and pops one element. -/
theorem leave_operation_definition_ok :
    ∀ s : TIState, s.type_stack.length ≠ 0 →
      ∃ s', leave_operation_definition s = Except.ok s' ∧
        s'.type_stack.length + 1 = s.type_stack.length ∧
        s'.parent_type_stack = s.parent_type_stack ∧
        s'.input_type_stack = s.input_type_stack ∧
        s'.field_stack = s.field_stack ∧
        s'.input_value_def_stack = s.input_value_def_stack := by
  intro s h1
  obtain ⟨t, ht, htl⟩ := popE_ok s.type_stack h1
  refine ⟨{ s with type_stack := t }, ?_, htl, rfl, rfl, rfl, rfl⟩
  simp only [leave_operation_definition, ht]
  rfl

/-- Same fact for `leave_fragment_definition`. -/
theorem leave_fragment_definition_ok :
    ∀ s : TIState, s.type_stack.length ≠ 0 →
      ∃ s', leave_fragment_definition s = Except.ok s' ∧
        s'.type_stack.length + 1 = s.type_stack.length ∧
        s'.parent_type_stack = s.parent_type_stack ∧
        s'.input_type_stack = s.input_type_stack ∧
        s'.field_stack = s.field_stack ∧
        s'.input_value_def_stack = s.input_value_def_stack := by
  intro s h1
  obtain ⟨t, ht, htl⟩ := popE_ok s.type_stack h1
  refine ⟨{ s with type_stack := t }, ?_, htl, rfl, rfl, rfl, rfl⟩
  simp only [leave_fragment_definition, ht]
  rfl

/-- Same fact for `leave_inline_fragment`. -/
theorem leave_inline_fragment_ok :
    ∀ s : TIState, s.type_stack.length ≠ 0 →
      ∃ s', leave_inline_fragment s = Except.ok s' ∧
        s'.type_stack.length + 1 = s.type_stack.length ∧
        s'.parent_type_stack = s.parent_type_stack ∧
        s'.input_type_stack = s.input_type_stack ∧
        s'.field_stack = s.field_stack ∧
        s'.input_value_def_stack = s.input_value_def_stack := by
  intro s h1
  obtain ⟨t, ht, htl⟩ := popE_ok s.type_stack h1
  refine ⟨{ s with type_stack := t }, ?_, htl, rfl, rfl, rfl, rfl⟩
  simp only [leave_inline_fragment, ht]
  rfl

/-- Same fact for `leave_variable_definition` on the input-type stack. -/
theorem leave_variable_definition_ok :
    ∀ s : TIState, s.input_type_stack.length ≠ 0 →
      ∃ s', leave_variable_definition s = Except.ok s' ∧
        s'.type_stack = s.type_stack ∧
        s'.parent_type_stack = s.parent_type_stack ∧
        s'.input_type_stack.length + 1 = s.input_type_stack.length ∧
        s'.field_stack = s.field_stack ∧
        s'.input_value_def_stack = s.input_value_def_stack := by
  intro s h1
  obtain ⟨it, hit, hitl⟩ := popE_ok s.input_type_stack h1
  refine ⟨{ s with input_type_stack := it }, ?_, rfl, rfl, hitl, rfl, rfl⟩
  simp only [leave_variable_definition, hit]
  rfl

/-- Reduction of a successful bind in the `Except` monad. -/
theorem ti_bind_ok {β γ : Type} (a : β) (f : β → Except String γ) :
    (do let x ← Except.ok a; f x : Except String γ) = f a := rfl

mutual

/-- Walking any value from any state never raises and preserves all stack
heights. -/
theorem walkValue_ok (schema : GSchema) :
    ∀ (v : ValueNode) (s : TIState),
      ∃ s', walkValue schema s v = Except.ok s' ∧ sameShape s' s
  | .intV _, s => ⟨s, by simp [walkValue], ⟨rfl, rfl, rfl, rfl, rfl⟩⟩
  | .floatV _, s => ⟨s, by simp [walkValue], ⟨rfl, rfl, rfl, rfl, rfl⟩⟩
  | .strV _, s => ⟨s, by simp [walkValue], ⟨rfl, rfl, rfl, rfl, rfl⟩⟩
  | .boolV _, s => ⟨s, by simp [walkValue], ⟨rfl, rfl, rfl, rfl, rfl⟩⟩
  | .nullV, s => ⟨s, by simp [walkValue], ⟨rfl, rfl, rfl, rfl, rfl⟩⟩
  | .varV _, s => ⟨s, by simp [walkValue], ⟨rfl, rfl, rfl, rfl, rfl⟩⟩
  | .enumV v, s =>
      ⟨leave_enum_value (enter_enum_value s v), by simp [walkValue],
        ⟨rfl, rfl, rfl, rfl, rfl⟩⟩
  | .listV vs, s => by
      obtain ⟨s2, h2, e1, e2, e3, e4, e5⟩ :=
        walkValues_ok schema vs (enter_list_value s)
      simp only [enter_list_value, List.length_cons] at e1 e2 e3 e4 e5
      obtain ⟨s3, h3, f1, f2, f3, f4, f5⟩ :=
        _leave_input_value_ok s2 (by omega) (by omega)
      refine ⟨s3, ?_, ?_⟩
      · simp only [walkValue, h2, ti_bind_ok]
        exact h3
      · have g1 := congrArg List.length f1
        have g2 := congrArg List.length f2
        have g4 := congrArg List.length f4
        exact ⟨by omega, by omega, by omega, by omega, by omega⟩
  | .objV fields, s => by
      obtain ⟨s2, h2, hs⟩ := walkObjectFields_ok schema fields s
      refine ⟨s2, ?_, hs⟩
      simp only [walkValue]
      exact h2

/-- Walking a value list never raises and preserves all stack heights. -/
theorem walkValues_ok (schema : GSchema) :
    ∀ (vs : List ValueNode) (s : TIState),
      ∃ s', walkValues schema s vs = Except.ok s' ∧ sameShape s' s
  | [], s => ⟨s, by simp [walkValues], ⟨rfl, rfl, rfl, rfl, rfl⟩⟩
  | v :: rest, s => by
      obtain ⟨s1, h1, hs1⟩ := walkValue_ok schema v s
      obtain ⟨s2, h2, hs2⟩ := walkValues_ok schema rest s1
      refine ⟨s2, ?_, sameShape_trans hs2 hs1⟩
      simp only [walkValues, h1, ti_bind_ok]
      exact h2

/-- Walking the object fields of an object value never raises and
preserves all stack heights. -/
theorem walkObjectFields_ok (schema : GSchema) :
    ∀ (fields : List (String × ValueNode)) (s : TIState),
      ∃ s', walkObjectFields schema s fields = Except.ok s' ∧ sameShape s' s
  | [], s => ⟨s, by simp [walkObjectFields], ⟨rfl, rfl, rfl, rfl, rfl⟩⟩
  | (n, v) :: rest, s => by
      obtain ⟨s2, h2, e1, e2, e3, e4, e5⟩ :=
        walkValue_ok schema v (enter_object_field s n)
      simp only [enter_object_field, List.length_cons] at e1 e2 e3 e4 e5
      obtain ⟨s3, h3, f1, f2, f3, f4, f5⟩ :=
        _leave_input_value_ok s2 (by omega) (by omega)
      have g1 := congrArg List.length f1
      have g2 := congrArg List.length f2
      have g4 := congrArg List.length f4
      obtain ⟨s4, h4, k1, k2, k3, k4, k5⟩ := walkObjectFields_ok schema rest s3
      refine ⟨s4, ?_, ?_⟩
      · have hb : leave_object_field s2 = Except.ok s3 := h3
        simp only [walkObjectFields, h2, ti_bind_ok, hb]
        exact h4
      · exact ⟨by omega, by omega, by omega, by omega, by omega⟩

end

/-- Walking an argument list never raises and preserves all stack
heights. -/
theorem walkArguments_ok (schema : GSchema) :
    ∀ (args : List (String × ValueNode)) (s : TIState),
      ∃ s', walkArguments schema s args = Except.ok s' ∧ sameShape s' s
  | [], s => ⟨s, by simp [walkArguments], ⟨rfl, rfl, rfl, rfl, rfl⟩⟩
  | (n, v) :: rest, s => by
      obtain ⟨s2, h2, e1, e2, e3, e4, e5⟩ :=
        walkValue_ok schema v (enter_argument s n)
      simp only [enter_argument, List.length_cons] at e1 e2 e3 e4 e5
      obtain ⟨s3, h3, f1, f2, f3, f4, f5⟩ :=
        leave_argument_ok s2 (by omega) (by omega)
      have g1 := congrArg List.length f1
      have g2 := congrArg List.length f2
      have g4 := congrArg List.length f4
      obtain ⟨s4, h4, k1, k2, k3, k4, k5⟩ := walkArguments_ok schema rest s3
      refine ⟨s4, ?_, ?_⟩
      · simp only [walkArguments, h2, ti_bind_ok, h3]
        exact h4
      · exact ⟨by omega, by omega, by omega, by omega, by omega⟩

/-- Walking a directive never raises and preserves all stack heights. -/
theorem walkDirective_ok (schema : GSchema) (d : DirectiveNode)
    (s : TIState) :
    ∃ s', walkDirective schema s d = Except.ok s' ∧ sameShape s' s := by
  obtain ⟨s2, h2, e1, e2, e3, e4, e5⟩ :=
    walkArguments_ok schema d.args (enter_directive schema s d.name)
  refine ⟨leave_directive s2, ?_, ?_⟩
  · simp only [walkDirective, h2, ti_bind_ok]
  · simp only [enter_directive, leave_directive] at e1 e2 e3 e4 e5 ⊢
    exact ⟨e1, e2, e3, e4, e5⟩

/-- Walking a directive list never raises and preserves all stack
heights. -/
theorem walkDirectives_ok (schema : GSchema) :
    ∀ (ds : List DirectiveNode) (s : TIState),
      ∃ s', walkDirectives schema s ds = Except.ok s' ∧ sameShape s' s
  | [], s => ⟨s, by simp [walkDirectives], ⟨rfl, rfl, rfl, rfl, rfl⟩⟩
  | d :: rest, s => by
      obtain ⟨s1, h1, hs1⟩ := walkDirective_ok schema d s
      obtain ⟨s2, h2, hs2⟩ := walkDirectives_ok schema rest s1
      refine ⟨s2, ?_, sameShape_trans hs2 hs1⟩
      simp only [walkDirectives, h1, ti_bind_ok]
      exact h2

mutual

/-- Walking any selection from any state never raises and preserves all
stack heights. -/
theorem walkSelection_ok (schema : GSchema) :
    ∀ (sel : SelectionNode) (s : TIState),
      ∃ s', walkSelection schema s sel = Except.ok s' ∧ sameShape s' s
  | .field a name args directives selectionSet, s => by
      obtain ⟨s2, h2, e1, e2, e3, e4, e5⟩ :=
        walkArguments_ok schema args (enter_field schema s name)
      simp only [enter_field, List.length_cons] at e1 e2 e3 e4 e5
      obtain ⟨s3, h3, j1, j2, j3, j4, j5⟩ := walkDirectives_ok schema directives s2
      cases selectionSet with
      | none =>
          obtain ⟨s5, h5, f1, f2, f3, f4, f5⟩ :=
            leave_field_ok s3 (by omega) (by omega)
          have g2 := congrArg List.length f2
          have g3 := congrArg List.length f3
          have g5 := congrArg List.length f5
          refine ⟨s5, ?_, ?_⟩
          · simp only [walkSelection, h2, ti_bind_ok, h3, h5]
          · exact ⟨by omega, by omega, by omega, by omega, by omega⟩
      | some ss =>
          obtain ⟨s4, h4, k1, k2, k3, k4, k5⟩ := walkSelectionSet_ok schema ss s3
          obtain ⟨s5, h5, f1, f2, f3, f4, f5⟩ :=
            leave_field_ok s4 (by omega) (by omega)
          have g2 := congrArg List.length f2
          have g3 := congrArg List.length f3
          have g5 := congrArg List.length f5
          refine ⟨s5, ?_, ?_⟩
          · simp only [walkSelection, h2, ti_bind_ok, h3, h4, h5]
          · exact ⟨by omega, by omega, by omega, by omega, by omega⟩
  | .fragSpread name directives, s => by
      obtain ⟨s1, h1, hs1⟩ := walkDirectives_ok schema directives s
      refine ⟨s1, ?_, hs1⟩
      simp only [walkSelection]
      exact h1
  | .inlineFrag typeCondition directives selectionSet, s => by
      obtain ⟨s2, h2, e1, e2, e3, e4, e5⟩ :=
        walkDirectives_ok schema directives
          (enter_inline_fragment schema s typeCondition)
      have ht : (enter_inline_fragment schema s typeCondition).type_stack.length
          = s.type_stack.length + 1 := by
        cases typeCondition <;> simp [enter_inline_fragment]
      have hothers :
          (enter_inline_fragment schema s typeCondition).parent_type_stack
              = s.parent_type_stack ∧
            (enter_inline_fragment schema s typeCondition).input_type_stack
              = s.input_type_stack ∧
            (enter_inline_fragment schema s typeCondition).field_stack
              = s.field_stack ∧
            (enter_inline_fragment schema s typeCondition).input_value_def_stack
              = s.input_value_def_stack := by
        cases typeCondition <;> exact ⟨rfl, rfl, rfl, rfl⟩
      obtain ⟨hp, hi, hf, hv⟩ := hothers
      rw [ht] at e1
      rw [hp] at e2
      rw [hi] at e3
      rw [hf] at e4
      rw [hv] at e5
      obtain ⟨s4, h4, k1, k2, k3, k4, k5⟩ := walkSelectionSet_ok schema selectionSet s2
      obtain ⟨s5, h5, f1, f2, f3, f4, f5⟩ :=
        leave_inline_fragment_ok s4 (by omega)
      have g2 := congrArg List.length f2
      have g3 := congrArg List.length f3
      have g4 := congrArg List.length f4
      have g5 := congrArg List.length f5
      refine ⟨s5, ?_, ?_⟩
      · simp only [walkSelection, h2, ti_bind_ok, h4, h5]
      · exact ⟨by omega, by omega, by omega, by omega, by omega⟩

/-- Walking a selection set never raises and preserves all stack
heights. -/
theorem walkSelectionSet_ok (schema : GSchema) :
    ∀ (ss : SelectionSetNode) (s : TIState),
      ∃ s', walkSelectionSet schema s ss = Except.ok s' ∧ sameShape s' s
  | .mk selections, s => by
      obtain ⟨s2, h2, e1, e2, e3, e4, e5⟩ :=
        walkSelections_ok schema selections (enter_selection_set s)
      simp only [enter_selection_set, List.length_cons] at e1 e2 e3 e4 e5
      obtain ⟨s3, h3, f1, f2, f3, f4, f5⟩ :=
        leave_selection_set_ok s2 (by omega)
      have g1 := congrArg List.length f1
      have g3 := congrArg List.length f3
      have g4 := congrArg List.length f4
      have g5 := congrArg List.length f5
      refine ⟨s3, ?_, ?_⟩
      · simp only [walkSelectionSet, h2, ti_bind_ok, h3]
      · exact ⟨by omega, by omega, by omega, by omega, by omega⟩

/-- Walking a selection list never raises and preserves all stack
heights. -/
theorem walkSelections_ok (schema : GSchema) :
    ∀ (sels : List SelectionNode) (s : TIState),
      ∃ s', walkSelections schema s sels = Except.ok s' ∧ sameShape s' s
  | [], s => ⟨s, by simp [walkSelections], ⟨rfl, rfl, rfl, rfl, rfl⟩⟩
  | sel :: rest, s => by
      obtain ⟨s1, h1, hs1⟩ := walkSelection_ok schema sel s
      obtain ⟨s2, h2, hs2⟩ := walkSelections_ok schema rest s1
      refine ⟨s2, ?_, sameShape_trans hs2 hs1⟩
      simp only [walkSelections, h1, ti_bind_ok]
      exact h2

end

/-- Walking a variable definition never raises and preserves all stack
heights. -/
theorem walkVarDef_ok (schema : GSchema) (vd : VarDefNode) (s : TIState) :
    ∃ s', walkVarDef schema s vd = Except.ok s' ∧ sameShape s' s := by
  have hpush :
      (enter_variable_definition schema s vd.type).input_type_stack.length
        = s.input_type_stack.length + 1 := rfl
  have a1 : (enter_variable_definition schema s vd.type).type_stack
      = s.type_stack := rfl
  have a2 : (enter_variable_definition schema s vd.type).parent_type_stack
      = s.parent_type_stack := rfl
  have a4 : (enter_variable_definition schema s vd.type).field_stack
      = s.field_stack := rfl
  have a5 : (enter_variable_definition schema s vd.type).input_value_def_stack
      = s.input_value_def_stack := rfl
  cases hdv : vd.default_value with
  | none =>
      obtain ⟨s3, h3, f1, f2, f3, f4, f5⟩ :=
        leave_variable_definition_ok (enter_variable_definition schema s vd.type)
          (by omega)
      rw [a1] at f1
      rw [a2] at f2
      rw [hpush] at f3
      rw [a4] at f4
      rw [a5] at f5
      have g1 := congrArg List.length f1
      have g2 := congrArg List.length f2
      have g4 := congrArg List.length f4
      have g5 := congrArg List.length f5
      refine ⟨s3, ?_, ?_⟩
      · simp only [walkVarDef, hdv, ti_bind_ok, h3]
      · exact ⟨by omega, by omega, by omega, by omega, by omega⟩
  | some v =>
      obtain ⟨s2, h2, e1, e2, e3, e4, e5⟩ :=
        walkValue_ok schema v (enter_variable_definition schema s vd.type)
      simp only [enter_variable_definition, List.length_cons] at e1 e2 e3 e4 e5
      obtain ⟨s3, h3, f1, f2, f3, f4, f5⟩ :=
        leave_variable_definition_ok s2 (by omega)
      have g1 := congrArg List.length f1
      have g2 := congrArg List.length f2
      have g4 := congrArg List.length f4
      have g5 := congrArg List.length f5
      refine ⟨s3, ?_, ?_⟩
      · simp only [walkVarDef, hdv, h2, ti_bind_ok, h3]
      · exact ⟨by omega, by omega, by omega, by omega, by omega⟩

/-- Walking a variable-definition list never raises and preserves all
stack heights. -/
theorem walkVarDefs_ok (schema : GSchema) :
    ∀ (vds : List VarDefNode) (s : TIState),
      ∃ s', walkVarDefs schema s vds = Except.ok s' ∧ sameShape s' s
  | [], s => ⟨s, by simp [walkVarDefs], ⟨rfl, rfl, rfl, rfl, rfl⟩⟩
  | vd :: rest, s => by
      obtain ⟨s1, h1, hs1⟩ := walkVarDef_ok schema vd s
      obtain ⟨s2, h2, hs2⟩ := walkVarDefs_ok schema rest s1
      refine ⟨s2, ?_, sameShape_trans hs2 hs1⟩
      simp only [walkVarDefs, h1, ti_bind_ok]
      exact h2

/-- Walking an executable definition never raises and preserves all stack
heights. -/
theorem walkDefinition_ok (schema : GSchema) :
    ∀ (d : DefinitionNode) (s : TIState),
      ∃ s', walkDefinition schema s d = Except.ok s' ∧ sameShape s' s
  | .operation operation nm varDefs directives selectionSet, s => by
      obtain ⟨s2, h2, e1, e2, e3, e4, e5⟩ :=
        walkVarDefs_ok schema varDefs
          (enter_operation_definition schema s operation)
      simp only [enter_operation_definition, List.length_cons] at e1 e2 e3 e4 e5
      obtain ⟨s3, h3, j1, j2, j3, j4, j5⟩ :=
        walkDirectives_ok schema directives s2
      obtain ⟨s4, h4, k1, k2, k3, k4, k5⟩ :=
        walkSelectionSet_ok schema selectionSet s3
      obtain ⟨s5, h5, f1, f2, f3, f4, f5⟩ :=
        leave_operation_definition_ok s4 (by omega)
      have g2 := congrArg List.length f2
      have g3 := congrArg List.length f3
      have g4 := congrArg List.length f4
      have g5 := congrArg List.length f5
      refine ⟨s5, ?_, ?_⟩
      · simp only [walkDefinition, h2, ti_bind_ok, h3, h4, h5]
      · exact ⟨by omega, by omega, by omega, by omega, by omega⟩
  | .frag nm typeCondition varDefs directives selectionSet, s => by
      obtain ⟨s2, h2, e1, e2, e3, e4, e5⟩ :=
        walkVarDefs_ok schema varDefs
          (enter_fragment_definition schema s typeCondition)
      simp only [enter_fragment_definition, List.length_cons] at e1 e2 e3 e4 e5
      obtain ⟨s3, h3, j1, j2, j3, j4, j5⟩ :=
        walkDirectives_ok schema directives s2
      obtain ⟨s4, h4, k1, k2, k3, k4, k5⟩ :=
        walkSelectionSet_ok schema selectionSet s3
      obtain ⟨s5, h5, f1, f2, f3, f4, f5⟩ :=
        leave_fragment_definition_ok s4 (by omega)
      have g2 := congrArg List.length f2
      have g3 := congrArg List.length f3
      have g4 := congrArg List.length f4
      have g5 := congrArg List.length f5
      refine ⟨s5, ?_, ?_⟩
      · simp only [walkDefinition, h2, ti_bind_ok, h3, h4, h5]
      · exact ⟨by omega, by omega, by omega, by omega, by omega⟩

/-- Walking a definition list never raises and preserves all stack
heights. -/
theorem walkDefinitions_ok (schema : GSchema) :
    ∀ (ds : List DefinitionNode) (s : TIState),
      ∃ s', walkDefinitions schema s ds = Except.ok s' ∧ sameShape s' s
  | [], s => ⟨s, by simp [walkDefinitions], ⟨rfl, rfl, rfl, rfl, rfl⟩⟩
  | d :: rest, s => by
      obtain ⟨s1, h1, hs1⟩ := walkDefinition_ok schema d s
      obtain ⟨s2, h2, hs2⟩ := walkDefinitions_ok schema rest s1
      refine ⟨s2, ?_, sameShape_trans hs2 hs1⟩
      simp only [walkDefinitions, h1, ti_bind_ok]
      exact h2

end TypeInfo

/-- C3: for every schema and every document — including malformed ones —
the `TypeInfoVisitor` traversal is total: the walk never raises.  Unknown
or kind-invalid lookups are downgraded to `null`: an unknown directive
name sets `directive` to `None`; a missing parent type makes `enter_field`
push `None` on the field and type stacks; an unknown type condition or
variable type pushes `None`; an argument without a directive or field
context sets `argument` to `None` and pushes `None`s; an unknown enum
value sets `enum_value` to `None`. -/
theorem C3_type_info_total :
    (∀ (schema : TypeInfo.GSchema) (doc : List TypeInfo.DefinitionNode),
      ∃ s', TypeInfo.walkDocument schema doc = Except.ok s') ∧
    (∀ (schema : TypeInfo.GSchema) (s : TypeInfo.TIState) (name : String),
      (schema.directives.find? fun p => p.1 == name) = none →
        (TypeInfo.enter_directive schema s name).directive = none) ∧
    (∀ (schema : TypeInfo.GSchema) (s : TypeInfo.TIState) (name : String),
      s.parent_type = none →
        (TypeInfo.enter_field schema s name).field_stack.head? = some none ∧
        (TypeInfo.enter_field schema s name).type_stack.head? = some none) ∧
    (∀ (schema : TypeInfo.GSchema) (s : TypeInfo.TIState)
        (tc : TypeInfo.TypeRefAst),
      TypeInfo.get_type_from_literal schema tc = none →
        (TypeInfo.enter_fragment_definition schema s tc).type_stack.head? =
          some none) ∧
    (∀ (schema : TypeInfo.GSchema) (s : TypeInfo.TIState)
        (tyNode : TypeInfo.TypeRefAst),
      TypeInfo.get_type_from_literal schema tyNode = none →
        (TypeInfo.enter_variable_definition schema s tyNode).input_type_stack.head? = some none) ∧
    (∀ (s : TypeInfo.TIState) (argName : String),
      s.directive = none → s.field = none →
        (TypeInfo.enter_argument s argName).argument = none ∧
        (TypeInfo.enter_argument s argName).input_type_stack.head? =
          some none ∧
        (TypeInfo.enter_argument s argName).input_value_def_stack.head? =
          some none) ∧
    (∀ (s : TypeInfo.TIState) (v ename : String) (values : List String),
      s.input_type = some (TypeInfo.GType.enum ename values) →
        (values.find? fun x => x == v) = none →
        (TypeInfo.enter_enum_value s v).enum_value = none) := by
  refine ⟨?_, ?_, ?_, ?_, ?_, ?_, ?_⟩
  · intro schema doc
    obtain ⟨s', h, -⟩ :=
      TypeInfo.walkDefinitions_ok schema doc TypeInfo.initTI
    exact ⟨s', h⟩
  · intro schema s name h
    simp [TypeInfo.enter_directive, h]
  · intro schema s name h
    constructor
    · simp [TypeInfo.enter_field, TypeInfo.get_field_def_m, h]
    · simp [TypeInfo.enter_field, TypeInfo.get_field_def_m, h]
  · intro schema s tc h
    simp [TypeInfo.enter_fragment_definition, h]
  · intro schema s tyNode h
    simp [TypeInfo.enter_variable_definition, h]
  · intro s argName h1 h2
    refine ⟨?_, ?_, ?_⟩ <;>
      simp [TypeInfo.enter_argument, h1, h2]
  · intro s v ename values h1 h2
    simp [TypeInfo.enter_enum_value, h1, TypeInfo.unwrap_type, h2]

/-- Witness for C3 on the empty schema: looking up the directive `skip` in
an empty registry downgrades `directive` to `None`. -/
theorem C3_type_info_total_witness :
    (TypeInfo.enter_directive
        { query_type := none, mutation_type := none,
          subscription_type := none, types := [], directives := [] }
        TypeInfo.initTI "skip").directive = none :=
  C3_type_info_total.2.1
    { query_type := none, mutation_type := none, subscription_type := none,
      types := [], directives := [] }
    TypeInfo.initTI "skip" rfl
